import Mathlib

/-!
Verification of the slack-irc bridge (src/lib/bot.js, src/lib/commands.js).

The development shallowly embeds the bot's per-user shadow-client pool,
the per-(user, channel) outbound message queues, the drain loop, the
inactivity timers, the Slack->IRC and IRC->Slack text transforms and the
command interception, and proves the behavioural claims about them.

JavaScript objects used as dictionaries (`this.ircClients`,
`this.messageQueues`, the per-user queue object) are embedded as
association lists in insertion order: assignment replaces the (unique)
entry in place or appends a fresh one at the end, `delete` removes it,
and key iteration follows list order, exactly as for JS objects.
-/

namespace SlackIrc

/-- JS object lookup `m[k]`: the value of the unique entry for `k`. -/
def alGet {K V : Type} [BEq K] (k : K) : List (K × V) → Option V
  | [] => none
  | p :: rest => if p.1 == k then some p.2 else alGet k rest

/-- JS object assignment `m[k] = v`: replace the entry in place, else append. -/
def alSet {K V : Type} [BEq K] (k : K) (v : V) : List (K × V) → List (K × V)
  | [] => [(k, v)]
  | p :: rest => if p.1 == k then (k, v) :: rest else p :: alSet k v rest

/-- JS `delete m[k]`. -/
def alDel {K V : Type} [BEq K] (k : K) : List (K × V) → List (K × V) :=
  List.filter (fun p => !(p.1 == k))

/-- `SERVER_NICKLEN` (bot.js line 19). -/
def SERVER_NICKLEN : Nat := 16

/-- Character-wise model of `str.replace(/a/g, b)` for single characters. -/
def jsReplaceChar (a b : Char) (s : String) : String :=
  String.mk (s.toList.map (fun c => if c = a then b else c))

/-- Model of `str.substr(0, n)` (`n` clamped below at 0, as in JS). -/
def strTake (n : Nat) (s : String) : String :=
  String.mk (s.toList.take n)

/-- Model of `str.startsWith(pre)` (stated over the character lists so
that concrete instances evaluate). -/
def strStartsWith (pre s : String) : Bool :=
  pre.toList.isPrefixOf s.toList

/-- bot.js `ircNick` (lines 468-471): replace `.` and space by `-`,
truncate to `SERVER_NICKLEN - nickSuffix.length`, append the suffix. -/
def ircNick (nickSuffix : String) (slackName : String) : String :=
  strTake (SERVER_NICKLEN - nickSuffix.length)
      (jsReplaceChar ' ' '-' (jsReplaceChar '.' '-' slackName))
    ++ nickSuffix

/-- The nick derivation as the spec words it: one pass replacing every `.`
and every space with `-`, truncation, suffix.  Stated to be compared with
the source's `ircNick`. -/
def ircNickSpec (nickSuffix : String) (slackName : String) : String :=
  String.mk ((slackName.toList.map
      (fun c => if c = '.' ∨ c = ' ' then '-' else c)).take
      (SERVER_NICKLEN - nickSuffix.length))
    ++ nickSuffix

/-- bot.js `connectNewClient`: `name.replace(/[^0-9a-z]/gi, '')`. -/
def sanitizeUserName (s : String) : String :=
  String.mk (s.toList.filter (fun c => c.isAlphanum))

/-- A Slack message as far as the queue/drain pipeline inspects it. -/
structure Msg where
  text : String
  subtype : Option String
  thread_ts : Option String
  /-- `message.attachments`; each entry carries its optional `image_url`.
  `none` means the field is absent (falsy), `some []` an empty array
  (truthy in JS). -/
  attachments : Option (List (Option String))
deriving DecidableEq, Repr

/-- A Slack user as the relay needs it: `user.id` and the display name
(`display_name_normalized || name`, bot.js `userName`). -/
structure User where
  id : String
  name : String
deriving DecidableEq, Repr

/-- A per-user IRC shadow client (bot.js `newClient`).  `timer` holds the
handle of the last `setTimeout` stored in `client.timer`. -/
structure Client where
  nick : String
  slackName : String
  userName : String
  connected : Bool
  timer : Option Nat
deriving DecidableEq, Repr

/-- `client.say` vs `client.action`. -/
inductive SendKind where
  | say
  | action
deriving DecidableEq, Repr

/-- One delivery performed by the drain loop.  `src` is instrumentation
recording which queued message the delivery originated from, used to state
the ordering claims. -/
structure SentItem where
  kind : SendKind
  text : String
  src : Msg
deriving DecidableEq, Repr

/-- The `resp.channel` answer of `conversations.info` as `queueMessage`
reads it. -/
structure ChanInfo where
  name : String
  is_channel : Bool
deriving DecidableEq, Repr

/-- The static configuration the embedded operations read. -/
structure Cfg where
  /-- `this.channelMapping`: slack channel name -> lowercased IRC channel. -/
  channelMapping : List (String × String)
  /-- `this.invertedMapping`: IRC channel -> slack channel name. -/
  invertedMapping : List (String × String)
  /-- `this.commandCharacters` (single-character command prefixes). -/
  commandCharacters : List Char
  /-- `this.nickSuffix` (`userNickSuffix || '-sl'`). -/
  nickSuffix : String
deriving DecidableEq, Repr

/-- A `parseText(message.text).then(text => client.say/action(...))`
continuation registered by the drain loop (bot.js lines 628-644) and
still unsettled.  The closure captures the client (tagged here by the
owner's user id), the destination channel and the shifted message; it
runs whenever its promise settles, with no re-check of the bot state. -/
structure PendingSend where
  userId : String
  channel : String
  msg : Msg
deriving DecidableEq, Repr

/-- The bot's mutable state.  `sentLog`, `processedCommands` and
`connectAttempts` are observation logs: IRC sends performed, messages
routed to `processCommandMessage`, and `client.connect` calls issued.
`pendingSends` holds the registered but not yet settled `parseText`
continuations in registration order, each under a fresh identifier drawn
from `nextSend`; which one settles next is the environment's choice
(`Event.promiseResolve`). -/
structure BotState where
  ircClients : List (String × Client)
  messageQueues : List (String × List (String × List Msg))
  sentLog : List (String × String × SentItem)
  processedCommands : List Msg
  pendingTimers : List (Nat × User × String)
  nextTimer : Nat
  connectAttempts : List String
  pendingSends : List (Nat × PendingSend)
  nextSend : Nat
deriving DecidableEq, Repr

def initState : BotState :=
  { ircClients := [], messageQueues := [], sentLog := [],
    processedCommands := [], pendingTimers := [], nextTimer := 0,
    connectAttempts := [], pendingSends := [], nextSend := 0 }

/-- bot.js `isCommandMessage` (lines 479-481): membership of the first
character in `commandCharacters` (an empty message has no first
character, so `indexOf(undefined)` is `-1`). -/
def isCommandMessage (cfg : Cfg) (text : String) : Bool :=
  match text.toList with
  | [] => false
  | c :: _ => cfg.commandCharacters.contains c

/-- The client record built by bot.js `newClient` before `connect`. -/
def freshClient (cfg : Cfg) (u : User) : Client :=
  { nick := ircNick cfg.nickSuffix u.name, slackName := u.name,
    userName := sanitizeUserName u.name, connected := false, timer := none }

/-- bot.js `newClient` (lines 495-513): store the client and issue the
connect attempt; the `001` callback is the separate `connected` event. -/
def newClient (cfg : Cfg) (u : User) (s : BotState) : BotState :=
  { s with ircClients := alSet u.id (freshClient cfg u) s.ircClients,
           connectAttempts := s.connectAttempts ++ [u.id] }

/-- bot.js `connectNewClient` (lines 483-493): only a user with no entry
in `ircClients` gets a new client. -/
def connectNewClient (cfg : Cfg) (u : User) (s : BotState) : BotState :=
  if (alGet u.id s.ircClients).isSome then s else newClient cfg u s

/-- bot.js `deleteClient` (lines 515-528): disconnect and remove the
entry.  Note that the pending away timer of the client is left alone. -/
def deleteClient (u : User) (s : BotState) : BotState :=
  match alGet u.id s.ircClients with
  | none => s
  | some _ => { s with ircClients := alDel u.id s.ircClients }

/-- bot.js `startAwayTimer` (lines 791-798): `client.timer = setTimeout(
() => deleteClient(user, message), ircTimeout * 1000)`. -/
def startAwayTimer (u : User) (message : String) (s : BotState) : BotState :=
  match alGet u.id s.ircClients with
  | none => s
  | some c =>
    { s with ircClients := alSet u.id { c with timer := some s.nextTimer } s.ircClients,
             pendingTimers := s.pendingTimers ++ [(s.nextTimer, u, message)],
             nextTimer := s.nextTimer + 1 }

/-- bot.js `clearAwayTimer` (lines 800-805): `clearTimeout(client.timer)`
(the stale handle stays stored on the client, as in JS). -/
def clearAwayTimer (u : User) (s : BotState) : BotState :=
  match alGet u.id s.ircClients with
  | none => s
  | some c =>
    match c.timer with
    | none => s
    | some t => { s with pendingTimers := s.pendingTimers.filter (fun e => !(e.1 == t)) }

/-- bot.js `restartAwayTimer` (lines 807-810). -/
def restartAwayTimer (u : User) (message : String) (s : BotState) : BotState :=
  startAwayTimer u message (clearAwayTimer u s)

/-- The away message interpolated in `sendMessagesToIRC` and the `001`
callback. -/
def awayMessage (u : User) : String :=
  "Slack user " ++ u.name ++ " went away"

/-- The `parseText(...).then(text => ...)` continuation of one shifted
message (lines 628-644), run when the message's promise settles.  `tf`
is the outcome of the asynchronous `parseText` promise: `some text` when
it resolves, `none` when it rejects (in which case the `.catch` only
logs and the message is gone).  A resolved message with no subtype or
subtype `file_share` goes out via `client.say` (with the `/giphy`
attachment rewriting), a `me_message` via `client.action`; any other
subtype falls through both branches and is dropped. -/
def deliver1 (tf : Msg → Option String) (m : Msg) : Option SentItem :=
  match tf m with
  | none => none
  | some text =>
    if m.subtype = none ∨ m.subtype = some "file_share" then
      let final :=
        if strStartsWith "/giphy" text ∧ m.attachments.isSome then
          (m.attachments.getD []).foldl
            (fun acc att => match att with
              | some url => text ++ ": " ++ url
              | none => acc) text
        else text
      some { kind := SendKind.say, text := final, src := m }
    else if m.subtype = some "me_message" then
      some { kind := SendKind.action, text := text, src := m }
    else none

/-- The continuations registered by the `for (const channel of
_.keys(messageQueue))` / `while` loop of `sendMessagesToIRC`: every
queued message of every channel is shifted out synchronously, in
channel-key order and FIFO within a channel, and for each one a
`parseText(...).then(...)` continuation capturing the client and the
channel is created.  The sends themselves happen only when the promises
settle. -/
def pendList (uid : String) (inner : List (String × List Msg)) :
    List PendingSend :=
  (inner.map (fun p => p.2.map
    (fun m => ({ userId := uid, channel := p.1, msg := m } : PendingSend)))).flatten

/-- Tag a run of freshly created continuations with consecutive
identifiers, in creation order. -/
def withIds : Nat → List PendingSend → List (Nat × PendingSend)
  | _, [] => []
  | n, x :: xs => (n, x) :: withIds (n + 1) xs

/-- bot.js `sendMessagesToIRC` (lines 612-647).  The drain loop shifts
every queued message out synchronously (the queue arrays are left empty)
and registers its `parseText(...).then(say/action)` continuation; no
send happens here — each send occurs when the corresponding promise
settles (`Event.promiseResolve`), in whatever order the environment
settles them. -/
def sendMessagesToIRC (cfg : Cfg) (tf : Msg → Option String)
    (u : User) (s : BotState) : BotState :=
  match alGet u.id s.messageQueues with
  | none => s
  | some inner =>
    match alGet u.id s.ircClients with
    | none => connectNewClient cfg u s
    | some client =>
      if !client.connected then s
      else
        let s1 := restartAwayTimer u (awayMessage u) s
        { s1 with
            messageQueues := alSet u.id (inner.map (fun p => (p.1, ([] : List Msg))))
              s1.messageQueues,
            pendingSends := s1.pendingSends
              ++ withIds s1.nextSend (pendList u.id inner),
            nextSend := s1.nextSend + (pendList u.id inner).length }

/-- `channel.is_channel ? '#' + chanName : chanName` (lines 599-600). -/
def chanNameOf (channel : ChanInfo) : String :=
  if channel.is_channel then "#" ++ channel.name else channel.name

/-- Line 593 of bot.js:
`this.messageQueues[user.id] = this.messageQueues[user.id] || {}`. -/
def ensureUserQueues (u : User) (s : BotState) : BotState :=
  { s with messageQueues :=
      alSet u.id ((alGet u.id s.messageQueues).getD []) s.messageQueues }

/-- Lines 604-605 of bot.js: `messageQueue[ircChannel] =
messageQueue[ircChannel] || []; messageQueue[ircChannel].push(message)`. -/
def pushQueue (u : User) (ircChannel : String) (m : Msg) (s : BotState) :
    BotState :=
  let inner := (alGet u.id s.messageQueues).getD []
  { s with messageQueues :=
      alSet u.id (alSet ircChannel ((alGet ircChannel inner).getD [] ++ [m])
        inner) s.messageQueues }

/-- bot.js `queueMessage` (lines 580-610).  `chanResp` is the
`resp.channel` of the `conversations.info` lookup (`none` when falsy; a
rejected lookup, which only logs, behaves the same way).  Routing a
command message to `processCommandMessage` is recorded in the
`processedCommands` log; the dispatcher's verbs are modelled separately
(`privMessage` below). -/
def queueMessage (cfg : Cfg) (tf : Msg → Option String) (u : User)
    (m : Msg) (chanResp : Option ChanInfo) (s : BotState) : BotState :=
  if m.thread_ts.isSome then s
  else
    match chanResp with
    | none => s
    | some channel =>
      let s1 := ensureUserQueues u s
      if isCommandMessage cfg m.text then
        { s1 with processedCommands := s1.processedCommands ++ [m] }
      else
        match alGet (chanNameOf channel) cfg.channelMapping with
        | some ircChannel =>
          sendMessagesToIRC cfg tf u (pushQueue u ircChannel m s1)
        | none => sendMessagesToIRC cfg tf u s1

/-- commands.js `privMessage` (lines 109-140), with the `whois` answer's
`host` field supplied as an oracle.  When the caller has no entry in
`this.messageQueues` and the target is online, line 129 reads
`messageQueue[ircUser]` off `undefined` and throws a `TypeError`
(returned as `Except.error`); nothing is queued or sent.  A non-DM call
or an offline target only produces a notice to the caller. -/
def privMessage (cfg : Cfg) (tf : Msg → Option String) (u : User)
    (channel : String) (ircUser : String) (msg : String)
    (whoisHost : Option String) (s : BotState) : Except String BotState :=
  if !strStartsWith "D" channel then Except.ok s
  else
    match whoisHost with
    | some _ =>
      match alGet u.id s.messageQueues with
      | none =>
        Except.error "TypeError: cannot read messageQueue[ircUser] of undefined"
      | some inner =>
        let inner2 :=
          alSet ircUser ((alGet ircUser inner).getD []
            ++ [{ text := msg, subtype := none, thread_ts := none,
                  attachments := none }]) inner
        Except.ok (sendMessagesToIRC cfg tf u
          { s with messageQueues := alSet u.id inner2 s.messageQueues })
    | none => Except.ok s

/-- The external events that drive the embedded state machine. -/
inductive Event where
  /-- An RTM `message` event routed to `queueMessage` (with the
  `conversations.info` answer for its channel). -/
  | slackMessage (u : User) (m : Msg) (chanResp : Option ChanInfo)
  /-- The per-client IRC `names` event: `sendMessagesToIRC(user)`. -/
  | names (u : User)
  /-- `user_typing` (or `presence_change` to active, or
  `checkActiveUsers`): `connectNewClient(user)`. -/
  | typing (u : User)
  /-- The `001` connect callback of `newClient`: `client.connected =
  true` then `startAwayTimer(user, ...)`. -/
  | connected (u : User)
  /-- A fatal per-client IRC `error`/`abort`: `deleteClient(user, ...)`. -/
  | clientError (u : User)
  /-- The `.reset` command (commands.js `resetIRC`): `deleteClient` then
  `connectNewClient`. -/
  | reset (u : User)
  /-- The timeout scheduled by `startAwayTimer` fires (only a timer still
  pending can fire; a cleared one cannot). -/
  | fire (t : Nat)
  /-- The `parseText` promise of the pending send `i` settles and its
  `.then`/`.catch` continuation runs.  The environment decides the
  settlement order: a message whose mention tokens need a `users.info`
  round-trip settles later than a plain message's next-microtask
  resolution. -/
  | promiseResolve (i : Nat)
deriving DecidableEq, Repr

def step (cfg : Cfg) (tf : Msg → Option String) (s : BotState) :
    Event → BotState
  | Event.slackMessage u m chanResp => queueMessage cfg tf u m chanResp s
  | Event.names u => sendMessagesToIRC cfg tf u s
  | Event.typing u => connectNewClient cfg u s
  | Event.connected u =>
    match alGet u.id s.ircClients with
    | none => s
    | some c =>
      startAwayTimer u (awayMessage u)
        { s with ircClients := alSet u.id { c with connected := true } s.ircClients }
  | Event.clientError u => deleteClient u s
  | Event.reset u => connectNewClient cfg u (deleteClient u s)
  | Event.fire t =>
    match s.pendingTimers.find? (fun e => e.1 == t) with
    | none => s
    | some e =>
      deleteClient e.2.1
        { s with pendingTimers := s.pendingTimers.filter (fun e2 => !(e2.1 == t)) }
  | Event.promiseResolve i =>
    match s.pendingSends.find? (fun e => e.1 == i) with
    | none => s
    | some e =>
      let s1 := { s with
        pendingSends := s.pendingSends.filter (fun e2 => !(e2.1 == i)) }
      match deliver1 tf e.2.msg with
      | some item =>
        { s1 with sentLog := s1.sentLog ++ [(e.2.userId, e.2.channel, item)] }
      | none => s1

def run (cfg : Cfg) (tf : Msg → Option String) (trace : List Event)
    (s : BotState) : BotState :=
  trace.foldl (step cfg tf) s

/-- The queue of user `uid` towards IRC channel `c`. -/
def queueOf (s : BotState) (uid c : String) : List Msg :=
  (alGet c ((alGet uid s.messageQueues).getD [])).getD []

/-- The messages actually handed to `client.say`/`client.action` for user
`uid` and channel `c`, oldest first. -/
def sentOf (s : BotState) (uid c : String) : List SentItem :=
  s.sentLog.filterMap (fun e =>
    if e.1 = uid ∧ e.2.1 = c then some e.2.2 else none)

/-- The unsettled send continuations of `(uid, c)`, in registration
(= shift) order. -/
def pendingOf (s : BotState) (uid c : String) : List (Nat × PendingSend) :=
  s.pendingSends.filter (fun e => e.2.userId == uid && e.2.channel == c)

/-- The messages of the unsettled send continuations of `(uid, c)`, in
registration order. -/
def pendingMsgs (s : BotState) (uid c : String) : List Msg :=
  (pendingOf s uid c).map (fun e => e.2.msg)

/-- Whether settling pending send `i` in state `s` respects registration
order for its own `(user, channel)` pair: `i` is the oldest unsettled
continuation of that pair (vacuously true when `i` is not pending).
This holds of every settlement when no message needs an external lookup,
since the continuations then run in creation order. -/
def resolveOK (s : BotState) (i : Nat) : Bool :=
  match s.pendingSends.find? (fun e => e.1 == i) with
  | none => true
  | some e =>
    s.pendingSends.all (fun e2 =>
      !(e2.2.userId == e.2.userId && e2.2.channel == e.2.channel) || i ≤ e2.1)

/-- A trace settles the `parseText` promises of each `(user, channel)`
pair in registration order. -/
def inOrderRes (cfg : Cfg) (tf : Msg → Option String) :
    List Event → BotState → Bool
  | [], _ => true
  | e :: es, s =>
    (match e with
     | Event.promiseResolve i => resolveOK s i
     | _ => true)
    && inOrderRes cfg tf es (step cfg tf s e)

/-- Whether one event enqueues a message for `(uid, c)`: the exact guard
chain of `queueMessage` (thread messages, unknown channels, command
messages and unmapped channels enqueue nothing). -/
def enqOf (cfg : Cfg) (uid c : String) : Event → List Msg
  | Event.slackMessage u m chanResp =>
    if m.thread_ts.isSome then []
    else
      match chanResp with
      | none => []
      | some channel =>
        if isCommandMessage cfg m.text then []
        else
          match alGet (chanNameOf channel) cfg.channelMapping with
          | some ircChannel =>
            if u.id = uid ∧ ircChannel = c then [m] else []
          | none => []
  | _ => []

/-- All messages enqueued for `(uid, c)` along a trace, in order. -/
def enqueuedLog (cfg : Cfg) (uid c : String) (trace : List Event) : List Msg :=
  (trace.map (enqOf cfg uid c)).flatten

/-- JS `\s` (so `\S` is its negation). -/
def isSpaceJS (c : Char) : Bool :=
  c.isWhitespace

/-- bot.js `currentShadowNicks` (lines 753-757): the nicks of all current
shadow clients, in key order. -/
def currentShadowNicks (s : BotState) : List String :=
  s.ircClients.map (fun p => p.2.nick)

/-- bot.js `currentSlackNames` (lines 759-763). -/
def currentSlackNames (s : BotState) : List String :=
  s.ircClients.map (fun p => p.2.slackName)

/-- The callback of the `SLACK_REGEX` (`/@(\S+)/g`) replacement step of
`parseText` (lines 457-463): a mention whose derived nick is a live
shadow nick becomes that nick, any other mention is left alone. -/
def slackMentionRepl (nickSuffix : String) (nicks : List String)
    (name : List Char) : List Char :=
  let nick := ircNick nickSuffix (String.mk name)
  if nicks.contains nick then nick.toList else '@' :: name

/-- Scanner for `text.replace(SLACK_REGEX, ...)` with
`SLACK_REGEX = /@(\S+)/g`: left to right, a `@` followed by a maximal
nonempty run of non-space characters is a match (the run is the capture
group); everything else is copied.  `fuel` only bounds the recursion and
is set to the text length (each step consumes at least one character). -/
def slackMentionAux (nickSuffix : String) (nicks : List String) :
    Nat → List Char → List Char
  | 0, l => l
  | _ + 1, [] => []
  | fuel + 1, c :: rest =>
    if c = '@' then
      let name := rest.takeWhile (fun ch => !isSpaceJS ch)
      if name.isEmpty then
        c :: slackMentionAux nickSuffix nicks fuel rest
      else
        slackMentionRepl nickSuffix nicks name
          ++ slackMentionAux nickSuffix nicks fuel (rest.drop name.length)
    else c :: slackMentionAux nickSuffix nicks fuel rest

/-- The Slack-to-IRC mention rewriting step of `parseText` (lines
457-463), extracted from the chain of replacements (the surrounding
entity/emoji/link steps are identity on plain mention text). -/
def slackMentionReplace (nickSuffix : String) (nicks : List String)
    (text : String) : String :=
  String.mk (slackMentionAux nickSuffix nicks text.toList.length text.toList)

/-- Whether `run` carries the literal suffix at position `k`
(used for matching the `nickRegex` body). -/
def occursAt (sfx run : List Char) (k : Nat) : Bool :=
  (run.drop k).take sfx.length == sfx

/-- Greedy backtracking of the `\S+` of `nickRegex`: the largest split
position `k ≥ 1` of the non-space run at which the literal suffix
follows, searched from `run.length - sfx.length` downwards. -/
def findLastFrom (sfx run : List Char) : Nat → Option Nat
  | 0 => none
  | k + 1 =>
    if occursAt sfx run (k + 1) then some (k + 1)
    else findLastFrom sfx run k

/-- Match of `(\S+sfx\d?)` at the start of `l` (no leading `@`):
the group (with the optional trailing digit) and the rest of the text. -/
def nickCore (sfx : List Char) (l : List Char) :
    Option (List Char × List Char) :=
  let run := l.takeWhile (fun c => !isSpaceJS c)
  match findLastFrom sfx run (run.length - sfx.length) with
  | none => none
  | some k =>
    let d := match (run.drop (k + sfx.length)).head? with
      | some c => if c.isDigit then 1 else 0
      | none => 0
    let consumed := k + sfx.length + d
    some (run.take consumed, l.drop consumed)

/-- Match of the full `nickRegex` `@?(\S+sfx\d?)` at the start of `l`:
the matched text, the capture group, and the rest (the optional `@` is
tried first, and on failure retried as part of `\S+`, as the regex
engine does). -/
def nickTry (sfx : List Char) (l : List Char) :
    Option (List Char × List Char × List Char) :=
  match l with
  | [] => none
  | c :: rest =>
    if c = '@' then
      match nickCore sfx rest with
      | some gr => some ('@' :: gr.1, gr.1, gr.2)
      | none =>
        match nickCore sfx l with
        | some gr => some (gr.1, gr.1, gr.2)
        | none => none
    else
      match nickCore sfx l with
      | some gr => some (gr.1, gr.1, gr.2)
      | none => none

/-- The callback of `replaceUsernames` (lines 765-775): the first client
whose nick equals the captured group contributes its Slack name; with no
such client the matched text is kept. -/
def nickRepl (clients : List (String × Client))
    (matched group : List Char) : List Char :=
  match clients.find? (fun p => p.2.nick == String.mk group) with
  | some p => p.2.slackName.toList
  | none => matched

/-- Scanner for `text.replace(this.nickRegex, ...)`, leftmost match
first; `fuel` is set to the text length (every match consumes at least
one character). -/
def replaceUsernamesAux (clients : List (String × Client))
    (sfx : List Char) : Nat → List Char → List Char
  | 0, l => l
  | _ + 1, [] => []
  | fuel + 1, c :: rest =>
    match nickTry sfx (c :: rest) with
    | some mgr =>
      nickRepl clients mgr.1 mgr.2.1
        ++ replaceUsernamesAux clients sfx fuel mgr.2.2
    | none => c :: replaceUsernamesAux clients sfx fuel rest

/-- bot.js `replaceUsernames` (lines 765-775): rewrite every occurrence
of a live virtual nickname (`this.nickRegex`, built from the literal
nick suffix) back to that client's Slack display name. -/
def replaceUsernames (s : BotState) (nickSuffix : String)
    (text : String) : String :=
  String.mk (replaceUsernamesAux s.ircClients nickSuffix.toList
    text.toList.length text.toList)

/-- Lazy body capture for `convertFormatting`'s `(.+?)\x0F`: the shortest
nonempty newline-free prefix ended by the control char; `none` when the
regex cannot match here. -/
def lazyBody (stopChar : Char) (l : List Char) : Option (List Char × List Char) :=
  match l.findIdx? (fun c => c == stopChar) with
  | none => none
  | some i =>
    if 1 ≤ i ∧ (l.take i).all (fun c => !(c == '\n')) then
      some (l.take i, l.drop (i + 1))
    else none

/-- Scanner for `convertFormatting`'s first rewrite
`/\x03\d{2}(.+?)\x0F/g` (mIRC colour code to backquoted code span). -/
def convertColorAux : Nat → List Char → List Char
  | 0, l => l
  | _ + 1, [] => []
  | fuel + 1, c :: rest =>
    if c = Char.ofNat 3 then
      match rest with
      | d1 :: d2 :: rest2 =>
        if d1.isDigit ∧ d2.isDigit then
          match lazyBody (Char.ofNat 15) rest2 with
          | some br => '\x60' :: br.1 ++ '\x60' :: convertColorAux fuel br.2
          | none => c :: convertColorAux fuel rest
        else c :: convertColorAux fuel rest
      | _ => c :: convertColorAux fuel rest
    else c :: convertColorAux fuel rest

/-- Scanner for `convertFormatting`'s second rewrite
`/\x02(.+?)\x0F/g` (bold control code to `*...*`). -/
def convertBoldAux : Nat → List Char → List Char
  | 0, l => l
  | _ + 1, [] => []
  | fuel + 1, c :: rest =>
    if c = Char.ofNat 2 then
      match lazyBody (Char.ofNat 15) rest with
      | some br => '*' :: br.1 ++ '*' :: convertBoldAux fuel br.2
      | none => c :: convertBoldAux fuel rest
    else c :: convertBoldAux fuel rest

/-- bot.js `convertFormatting` (lines 777-780). -/
def convertFormatting (text : String) : String :=
  let converted := String.mk (convertColorAux text.toList.length text.toList)
  String.mk (convertBoldAux converted.toList.length converted.toList)

/-- `slackChannelName.replace(/^#/, '')`. -/
def dropHash (s : String) : String :=
  match s.toList with
  | '#' :: rest => String.mk rest
  | _ => s

/-- Character-wise `toLowerCase`. -/
def strToLower (s : String) : String :=
  String.mk (s.toList.map Char.toLower)

/-- The `conversations.list` channel record as `sendToSlack` reads it. -/
structure SlackChannel where
  id : String
  is_member : Bool
  is_group : Bool
deriving DecidableEq, Repr

/-- The `chat.postMessage` call `sendToSlack` would issue. -/
structure PostMessage where
  channel : String
  text : String
  username : String
deriving DecidableEq, Repr

/-- bot.js `sendToSlack` (lines 649-691).  `lookupChan` stands for
`getSlackChannelByName` (a `conversations.list` scan) and `highlight`
for `highlightUsername` of helpers.js, which is not under src/ and is
irrelevant here (it only shapes the posted text).  The result is the
post that reaches `chat.postMessage`, or `none` when the message is
dropped (unmapped channel, bot not a member, or a shadow client's own
nick as author). -/
def sendToSlack (cfg : Cfg) (lookupChan : String → Option SlackChannel)
    (highlight : String → String → String) (st : BotState)
    (author channel text : String) : Option PostMessage :=
  match alGet (strToLower channel) cfg.invertedMapping with
  | none => none
  | some slackChannelName =>
    match lookupChan (dropHash slackChannelName) with
    | none => none
    | some slackChannel =>
      if !slackChannel.is_member ∧ !slackChannel.is_group then none
      else if (currentShadowNicks st).contains author then none
      else
        let replacedText := replaceUsernames st cfg.nickSuffix text
        let convertedText := convertFormatting replacedText
        let mappedText := (currentSlackNames st).foldl
          (fun current username => highlight username current) convertedText
        some { channel := slackChannel.id, text := mappedText,
               username := author }

/-- The IRC `notice` listener (lines 299-302): wrap and forward. -/
def noticeToSlack (cfg : Cfg) (lookupChan : String → Option SlackChannel)
    (highlight : String → String → String) (st : BotState)
    (author dest text : String) : Option PostMessage :=
  sendToSlack cfg lookupChan highlight st author dest ("*" ++ text ++ "*")

/-- The IRC `action` listener (lines 304-307): wrap and forward. -/
def actionToSlack (cfg : Cfg) (lookupChan : String → Option SlackChannel)
    (highlight : String → String → String) (st : BotState)
    (author dest text : String) : Option PostMessage :=
  sendToSlack cfg lookupChan highlight st author dest ("_" ++ text ++ "_")

/-- The `options` object handed to the `Bot` constructor, restricted to
the fields the constructor's failure behaviour depends on.  String-valued
fields model JS falsiness: `none` is an absent field and `some ""` an
empty string (both falsy); an object-valued field is truthy whenever
present. -/
structure Options where
  server : Option String
  nickname : Option String
  channelMapping : Option (List (String × String))
  token : Option String
  /-- `options.imgur`, carrying `clientId` (line 81 reads
  `options.imgur.clientId` unconditionally). -/
  imgur : Option (Option String)
  commandCharacters : Option (List Char)
  userNickSuffix : Option String
deriving DecidableEq, Repr

/-- `REQUIRED_FIELDS` (bot.js line 17). -/
def REQUIRED_FIELDS : List String :=
  ["server", "nickname", "channelMapping", "token"]

/-- JS falsiness of a possibly-absent string. -/
def strFalsy : Option String → Bool
  | none => true
  | some s => s.isEmpty

/-- `!options[field]` for each required field (an object-valued
`channelMapping` is falsy exactly when absent). -/
def fieldFalsy (o : Options) : String → Bool
  | "server" => strFalsy o.server
  | "nickname" => strFalsy o.nickname
  | "channelMapping" => o.channelMapping.isNone
  | "token" => strFalsy o.token
  | _ => false

/-- The errors the constructor can raise. -/
inductive BotError where
  /-- `throw new ConfigurationError(msg)`. -/
  | configurationError (msg : String)
  /-- A JS `TypeError` (line 81 dereferences `options.imgur`). -/
  | typeError (msg : String)
deriving DecidableEq, Repr

/-- `ircChan.split(' ')[0]`. -/
def firstWord (s : String) : String :=
  String.mk (s.toList.takeWhile (fun c => !(c == ' ')))

/-- The configuration the constructor produces (bot.js lines 72-117),
restricted to what the embedded operations consume. -/
def mkCfg (o : Options) (mapping : List (String × String)) : Cfg :=
  let processed := mapping.map (fun p => (p.1, strToLower (firstWord p.2)))
  { channelMapping := processed,
    invertedMapping := processed.map (fun p => (p.2, p.1)),
    commandCharacters := (o.commandCharacters).getD [],
    nickSuffix := (o.userNickSuffix).getD "-sl" }

/-- The `Bot` constructor (bot.js lines 63-118).  Each required field is
checked for falsiness in `REQUIRED_FIELDS` order and the first falsy one
raises `ConfigurationError("Missing configuration field " + field)`.
`validMapping` stands for `validateChannelMapping` of validators.js,
which is not under src/; modelled from the spec ("malformed channel
mapping — fatal at startup") as a predicate whose failure raises a
`ConfigurationError`.  Line 81 then dereferences `options.imgur`, a
`TypeError` when that field is absent. -/
def newBot (validMapping : List (String × String) → Bool) (o : Options) :
    Except BotError Cfg :=
  match REQUIRED_FIELDS.find? (fieldFalsy o) with
  | some field =>
    Except.error (BotError.configurationError
      ("Missing configuration field " ++ field))
  | none =>
    match o.channelMapping with
    | none =>
      Except.error (BotError.configurationError
        ("Missing configuration field " ++ "channelMapping"))
    | some mapping =>
      if !validMapping mapping then
        Except.error (BotError.configurationError "Invalid channel mapping given")
      else
        match o.imgur with
        | none => Except.error (BotError.typeError
            "Cannot read property clientId of undefined")
        | some _ => Except.ok (mkCfg o mapping)

/-- Whether `sendMessagesToIRC` returns before reaching the drain loop
(no queue object for the user, no client, or a client that has not
completed its connect handshake): the guard chain of lines 613-620. -/
def drainSkipped (u : User) (s : BotState) : Bool :=
  match alGet u.id s.messageQueues with
  | none => true
  | some _ =>
    match alGet u.id s.ircClients with
    | none => true
    | some client => !client.connected

/-- A sample bridge configuration for concrete evaluations. -/
def sampleCfg : Cfg :=
  { channelMapping := [("#general", "#irc-general")],
    invertedMapping := [("#irc-general", "#general")],
    commandCharacters := ['.'],
    nickSuffix := "-sl" }

def sampleUser : User := { id := "U1", name := "bob" }

/-- A transform oracle where every `parseText` promise resolves to the
message text itself. -/
def sampleTf : Msg → Option String := fun m => some m.text

/-- A transform oracle where the `parseText` promise rejects. -/
def sampleTfFail : Msg → Option String := fun _ => none

def sampleMsg : Msg :=
  { text := "hi", subtype := none, thread_ts := none, attachments := none }

/-- A `.topic` command message sent as a thread reply. -/
def threadCmdMsg : Msg :=
  { text := ".topic", subtype := none, thread_ts := some "1",
    attachments := none }

def sampleChan : ChanInfo := { name := "general", is_channel := true }

def sampleClient : Client :=
  { nick := "bob-sl", slackName := "bob", userName := "bob",
    connected := true, timer := none }

/-- A state where `U1` has a connected shadow client and one queued
message for `#irc-general`. -/
def stateWithClient : BotState :=
  { initState with
      ircClients := [("U1", sampleClient)],
      messageQueues := [("U1", [("#irc-general", [sampleMsg])])] }

/-- Like `stateWithClient` but with the client still connecting. -/
def stateNotConnected : BotState :=
  { initState with
      ircClients := [("U1", { sampleClient with connected := false })],
      messageQueues := [("U1", [("#irc-general", [sampleMsg])])] }

/-- Typing spawns a client for `U1`, the connect handshake completes
(which starts the away timer), then the user issues `.reset`. -/
def c4trace : List Event :=
  [Event.typing sampleUser, Event.connected sampleUser,
   Event.reset sampleUser]

def msgThere : Msg :=
  { text := "there", subtype := none, thread_ts := none, attachments := none }

/-- Two messages enqueued while connected, whose `parseText` promises
settle youngest-first: the second message needed no `users.info`
round-trip, the first (a mention-bearing one) did. -/
def c1trace : List Event :=
  [Event.typing sampleUser, Event.connected sampleUser,
   Event.slackMessage sampleUser sampleMsg (some sampleChan),
   Event.slackMessage sampleUser msgThere (some sampleChan),
   Event.promiseResolve 1, Event.promiseResolve 0]

/-- The same two messages with their promises settling in registration
order. -/
def c1traceOk : List Event :=
  [Event.typing sampleUser, Event.connected sampleUser,
   Event.slackMessage sampleUser sampleMsg (some sampleChan),
   Event.slackMessage sampleUser msgThere (some sampleChan),
   Event.promiseResolve 0, Event.promiseResolve 1]

def sampleLookupChan : String → Option SlackChannel :=
  fun _ => some { id := "C1", is_member := true, is_group := false }

def sampleHighlight : String → String → String := fun _ t => t

/-- Options with all required fields present (plus `imgur`, which line 81
dereferences unconditionally). -/
def goodOptions : Options :=
  { server := some "irc.example.org", nickname := some "bot",
    channelMapping := some [("#general", "#irc-general")],
    token := some "tok", imgur := some (some "id"),
    commandCharacters := some ['.'], userNickSuffix := none }

/-- Options whose `token` is absent. -/
def badOptions : Options :=
  { goodOptions with token := none }

/-- Well-formedness of the embedded state: dictionary keys are unique
(as they are for the fields of a JS object), and the pending-send
identifiers grow in registration order and stay below the fresh-id
counter. -/
def WF (s : BotState) : Prop :=
  (s.ircClients.map Prod.fst).Nodup ∧ (s.messageQueues.map Prod.fst).Nodup
  ∧ (∀ p ∈ s.messageQueues, (p.2.map Prod.fst).Nodup)
  ∧ List.Pairwise (fun a b => a.1 < b.1) s.pendingSends
  ∧ ∀ e ∈ s.pendingSends, e.1 < s.nextSend

instance (s : BotState) : Decidable (WF s) := by
  unfold WF; infer_instance

theorem alGet_alSet_self {K V : Type} [BEq K] [LawfulBEq K] (k : K) (v : V)
    (m : List (K × V)) : alGet k (alSet k v m) = some v := by
  induction m with
  | nil => simp [alGet, alSet]
  | cons p rest ih =>
    cases h : p.1 == k with
    | true => simp [alSet, h, alGet]
    | false => simp [alSet, h, alGet, ih]

theorem alGet_alSet_ne {K V : Type} [BEq K] [LawfulBEq K] {k' k : K} (v : V)
    (m : List (K × V)) (h : k' ≠ k) :
    alGet k' (alSet k v m) = alGet k' m := by
  induction m with
  | nil => simp [alGet, alSet, Ne.symm h]
  | cons p rest ih =>
    cases hp : p.1 == k with
    | true =>
      have hpk : p.1 = k := by simpa using hp
      simp [alSet, hp, alGet, hpk, Ne.symm h]
    | false => simp [alSet, hp, alGet, ih]

theorem alGet_mem {K V : Type} [BEq K] [LawfulBEq K] {k : K} {v : V}
    {m : List (K × V)} (h : alGet k m = some v) : (k, v) ∈ m := by
  induction m with
  | nil => simp [alGet] at h
  | cons p rest ih =>
    by_cases hp : (p.1 == k) = true
    · have hpk : p.1 = k := by simpa using hp
      simp [alGet, hp] at h
      obtain ⟨a, b⟩ := p
      simp only at hpk h
      subst hpk
      subst h
      exact List.mem_cons_self _ _
    · simp [alGet, hp] at h
      exact List.mem_cons_of_mem _ (ih h)

theorem mem_alSet {K V : Type} [BEq K] {k : K} {v : V} {p : K × V}
    {m : List (K × V)} (h : p ∈ alSet k v m) : p ∈ m ∨ p = (k, v) := by
  induction m with
  | nil => simp [alSet] at h; simp [h]
  | cons q rest ih =>
    by_cases hq : (q.1 == k) = true
    · simp [alSet, hq] at h
      rcases h with h | h
      · right; exact h
      · left; exact List.mem_cons_of_mem _ h
    · simp [alSet, hq] at h
      rcases h with h | h
      · left; simp [h]
      · rcases ih h with h2 | h2
        · left; exact List.mem_cons_of_mem _ h2
        · right; exact h2

theorem mem_map_fst_alSet {K V : Type} [BEq K] {x k : K} {v : V}
    {m : List (K × V)} (h : x ∈ (alSet k v m).map Prod.fst) :
    x ∈ m.map Prod.fst ∨ x = k := by
  rcases List.mem_map.mp h with ⟨p, hp, hpx⟩
  rcases mem_alSet hp with h2 | h2
  · left; exact hpx ▸ List.mem_map_of_mem _ h2
  · right; rw [← hpx, h2]

theorem alSet_nodup {K V : Type} [BEq K] [LawfulBEq K] (k : K) (v : V)
    {m : List (K × V)} (h : (m.map Prod.fst).Nodup) :
    ((alSet k v m).map Prod.fst).Nodup := by
  induction m with
  | nil => simp [alSet]
  | cons p rest ih =>
    simp only [List.map_cons, List.nodup_cons] at h
    by_cases hp : (p.1 == k) = true
    · have hpk : p.1 = k := by simpa using hp
      simp only [alSet, if_pos hp, List.map_cons, List.nodup_cons]
      refine ⟨?_, h.2⟩
      rw [← hpk]; exact h.1
    · have hpk : ¬ p.1 = k := by simpa using hp
      simp only [alSet, if_neg hp, List.map_cons, List.nodup_cons]
      refine ⟨fun hmem => ?_, ih h.2⟩
      rcases mem_map_fst_alSet hmem with h2 | h2
      · exact h.1 h2
      · exact hpk h2

theorem alDel_nodup {K V : Type} [BEq K] (k : K) {m : List (K × V)}
    (h : (m.map Prod.fst).Nodup) : ((alDel k m).map Prod.fst).Nodup := by
  exact h.sublist (List.Sublist.map _ (List.filter_sublist m))

theorem mem_alDel {K V : Type} [BEq K] {k : K} {p : K × V}
    {m : List (K × V)} (h : p ∈ alDel k m) : p ∈ m :=
  List.mem_of_mem_filter h

theorem alGet_map_empty {V W : Type} (c : String) (inner : List (String × V))
    (w : W) : alGet c (inner.map (fun p => (p.1, w)))
      = (alGet c inner).map (fun _ => w) := by
  induction inner with
  | nil => simp [alGet]
  | cons p rest ih =>
    by_cases hp : (p.1 == c) = true
    · simp [alGet, hp]
    · simp [alGet, hp, ih]

theorem newClient_queues (cfg : Cfg) (u : User) (s : BotState) :
    (newClient cfg u s).messageQueues = s.messageQueues
    ∧ (newClient cfg u s).sentLog = s.sentLog
    ∧ (newClient cfg u s).pendingSends = s.pendingSends
    ∧ (newClient cfg u s).nextSend = s.nextSend := by
  simp [newClient]

theorem connectNewClient_queues (cfg : Cfg) (u : User) (s : BotState) :
    (connectNewClient cfg u s).messageQueues = s.messageQueues
    ∧ (connectNewClient cfg u s).sentLog = s.sentLog
    ∧ (connectNewClient cfg u s).pendingSends = s.pendingSends
    ∧ (connectNewClient cfg u s).nextSend = s.nextSend := by
  unfold connectNewClient
  by_cases h : (alGet u.id s.ircClients).isSome = true
  · simp [h]
  · simp [h, newClient]

theorem deleteClient_queues (u : User) (s : BotState) :
    (deleteClient u s).messageQueues = s.messageQueues
    ∧ (deleteClient u s).sentLog = s.sentLog
    ∧ (deleteClient u s).pendingSends = s.pendingSends
    ∧ (deleteClient u s).nextSend = s.nextSend := by
  unfold deleteClient
  cases alGet u.id s.ircClients <;> simp

theorem startAwayTimer_queues (u : User) (msg : String) (s : BotState) :
    (startAwayTimer u msg s).messageQueues = s.messageQueues
    ∧ (startAwayTimer u msg s).sentLog = s.sentLog
    ∧ (startAwayTimer u msg s).pendingSends = s.pendingSends
    ∧ (startAwayTimer u msg s).nextSend = s.nextSend := by
  unfold startAwayTimer
  cases alGet u.id s.ircClients <;> simp

theorem clearAwayTimer_queues (u : User) (s : BotState) :
    (clearAwayTimer u s).messageQueues = s.messageQueues
    ∧ (clearAwayTimer u s).sentLog = s.sentLog
    ∧ (clearAwayTimer u s).pendingSends = s.pendingSends
    ∧ (clearAwayTimer u s).nextSend = s.nextSend := by
  unfold clearAwayTimer
  split
  · simp
  · split <;> simp

theorem restartAwayTimer_queues (u : User) (msg : String) (s : BotState) :
    (restartAwayTimer u msg s).messageQueues = s.messageQueues
    ∧ (restartAwayTimer u msg s).sentLog = s.sentLog
    ∧ (restartAwayTimer u msg s).pendingSends = s.pendingSends
    ∧ (restartAwayTimer u msg s).nextSend = s.nextSend := by
  unfold restartAwayTimer
  refine ⟨?_, ?_, ?_, ?_⟩
  · rw [(startAwayTimer_queues _ _ _).1, (clearAwayTimer_queues _ _).1]
  · rw [(startAwayTimer_queues _ _ _).2.1, (clearAwayTimer_queues _ _).2.1]
  · rw [(startAwayTimer_queues _ _ _).2.2.1, (clearAwayTimer_queues _ _).2.2.1]
  · rw [(startAwayTimer_queues _ _ _).2.2.2, (clearAwayTimer_queues _ _).2.2.2]

theorem newClient_wf (cfg : Cfg) (u : User) {s : BotState} (h : WF s) :
    WF (newClient cfg u s) := by
  obtain ⟨h1, h2, h3, h4, h5⟩ := h
  exact ⟨alSet_nodup _ _ h1, h2, h3, h4, h5⟩

theorem connectNewClient_wf (cfg : Cfg) (u : User) {s : BotState} (h : WF s) :
    WF (connectNewClient cfg u s) := by
  unfold connectNewClient
  by_cases hc : (alGet u.id s.ircClients).isSome = true
  · simpa [hc] using h
  · simpa [hc] using newClient_wf cfg u h

theorem deleteClient_wf (u : User) {s : BotState} (h : WF s) :
    WF (deleteClient u s) := by
  obtain ⟨h1, h2, h3, h4, h5⟩ := h
  unfold deleteClient
  cases alGet u.id s.ircClients with
  | none => exact ⟨h1, h2, h3, h4, h5⟩
  | some c => exact ⟨alDel_nodup _ h1, h2, h3, h4, h5⟩

theorem startAwayTimer_wf (u : User) (msg : String) {s : BotState}
    (h : WF s) : WF (startAwayTimer u msg s) := by
  obtain ⟨h1, h2, h3, h4, h5⟩ := h
  unfold startAwayTimer
  cases alGet u.id s.ircClients with
  | none => exact ⟨h1, h2, h3, h4, h5⟩
  | some c => exact ⟨alSet_nodup _ _ h1, h2, h3, h4, h5⟩

theorem clearAwayTimer_wf (u : User) {s : BotState} (h : WF s) :
    WF (clearAwayTimer u s) := by
  obtain ⟨h1, h2, h3, h4, h5⟩ := h
  unfold clearAwayTimer
  split
  · exact ⟨h1, h2, h3, h4, h5⟩
  · split
    · exact ⟨h1, h2, h3, h4, h5⟩
    · exact ⟨h1, h2, h3, h4, h5⟩

theorem restartAwayTimer_wf (u : User) (msg : String) {s : BotState}
    (h : WF s) : WF (restartAwayTimer u msg s) :=
  startAwayTimer_wf u msg (clearAwayTimer_wf u h)

theorem queueOf_mapEmpty (inner : List (String × List Msg)) (c : String) :
    (alGet c (inner.map (fun p => (p.1, ([] : List Msg))))).getD [] = [] := by
  rw [alGet_map_empty]
  cases alGet c inner <;> simp

theorem withIds_mem_id {n : Nat} {l : List PendingSend}
    {e : Nat × PendingSend} : e ∈ withIds n l → n ≤ e.1 ∧ e.1 < n + l.length := by
  induction l generalizing n with
  | nil => intro h; cases h
  | cons x xs ih =>
    intro h
    rcases List.mem_cons.mp h with h2 | h2
    · rw [h2]
      dsimp only
      simp only [List.length_cons]
      omega
    · have h3 := ih h2
      simp only [List.length_cons]
      omega

theorem withIds_mem_snd {n : Nat} {l : List PendingSend}
    {e : Nat × PendingSend} : e ∈ withIds n l → e.2 ∈ l := by
  induction l generalizing n with
  | nil => intro h; cases h
  | cons x xs ih =>
    intro h
    rcases List.mem_cons.mp h with h2 | h2
    · rw [h2]
      exact List.mem_cons_self _ _
    · exact List.mem_cons_of_mem _ (ih h2)

theorem withIds_pairwise (n : Nat) (l : List PendingSend) :
    List.Pairwise (fun a b : Nat × PendingSend => a.1 < b.1) (withIds n l) := by
  induction l generalizing n with
  | nil => exact List.Pairwise.nil
  | cons x xs ih =>
    simp only [withIds]
    refine List.Pairwise.cons ?_ (ih (n + 1))
    intro e he
    have h2 := withIds_mem_id he
    dsimp only
    omega

theorem withIds_filter_msgs (uid c : String) (n : Nat) (l : List PendingSend) :
    (((withIds n l).filter
        (fun e => e.2.userId == uid && e.2.channel == c)).map
      (fun e => e.2.msg))
      = (l.filter (fun ps => ps.userId == uid && ps.channel == c)).map
          (fun ps => ps.msg) := by
  induction l generalizing n with
  | nil => rfl
  | cons x xs ih =>
    simp only [withIds, List.filter_cons]
    dsimp only
    by_cases hx : (x.userId == uid && x.channel == c) = true
    · rw [if_pos hx, if_pos hx]
      simp only [List.map_cons]
      rw [ih]
    · rw [if_neg hx, if_neg hx]
      exact ih (n + 1)

theorem pendList_cons (uid : String) (p : String × List Msg)
    (rest : List (String × List Msg)) :
    pendList uid (p :: rest)
      = p.2.map (fun m =>
          ({ userId := uid, channel := p.1, msg := m } : PendingSend))
        ++ pendList uid rest := by
  unfold pendList
  simp [List.map_cons, List.flatten_cons]

theorem pendList_userId {uid : String} {inner : List (String × List Msg)}
    {ps : PendingSend} (h : ps ∈ pendList uid inner) : ps.userId = uid := by
  unfold pendList at h
  rw [List.mem_flatten] at h
  obtain ⟨block, hb, hps⟩ := h
  rw [List.mem_map] at hb
  obtain ⟨p, hp, rfl⟩ := hb
  rw [List.mem_map] at hps
  obtain ⟨m, hm, rfl⟩ := hps
  rfl

theorem pendList_filter_nil (uid c : String)
    (inner : List (String × List Msg)) (hc : c ∉ inner.map Prod.fst) :
    (pendList uid inner).filter
        (fun ps => ps.userId == uid && ps.channel == c) = [] := by
  induction inner with
  | nil => rfl
  | cons p rest ih =>
    simp only [List.map_cons, List.mem_cons] at hc
    push_neg at hc
    rw [pendList_cons, List.filter_append, ih hc.2, List.append_nil]
    rw [List.filter_eq_nil_iff]
    intro ps hps
    rw [List.mem_map] at hps
    obtain ⟨m, hm, rfl⟩ := hps
    intro hcontra
    rw [Bool.and_eq_true] at hcontra
    have h2 : p.1 = c := by simpa using hcontra.2
    exact hc.1 h2.symm

theorem pendList_filter_at (uid c : String)
    (inner : List (String × List Msg))
    (hN : (inner.map Prod.fst).Nodup) :
    ((pendList uid inner).filter
        (fun ps => ps.userId == uid && ps.channel == c)).map
      (fun ps => ps.msg)
      = (alGet c inner).getD [] := by
  induction inner with
  | nil => rfl
  | cons p rest ih =>
    simp only [List.map_cons, List.nodup_cons] at hN
    rw [pendList_cons, List.filter_append, List.map_append]
    by_cases hp : (p.1 == c) = true
    · have hpc : p.1 = c := by simpa using hp
      have hall : ∀ a ∈ p.2.map (fun m =>
          ({ userId := uid, channel := p.1, msg := m } : PendingSend)),
          (a.userId == uid && a.channel == c) = true := by
        intro a ha
        rw [List.mem_map] at ha
        obtain ⟨m, hm, rfl⟩ := ha
        simp [hpc]
      rw [List.filter_eq_self.mpr hall, List.map_map]
      have hid : ((fun ps : PendingSend => ps.msg)
          ∘ (fun m => ({ userId := uid, channel := p.1, msg := m } : PendingSend)))
          = id := by
        funext m
        rfl
      rw [hid, List.map_id]
      rw [pendList_filter_nil uid c rest (by rw [← hpc]; exact hN.1)]
      simp [alGet, hp]
    · have hnil : (p.2.map (fun m =>
          ({ userId := uid, channel := p.1, msg := m } : PendingSend))).filter
          (fun ps => ps.userId == uid && ps.channel == c) = [] := by
        rw [List.filter_eq_nil_iff]
        intro ps hps
        rw [List.mem_map] at hps
        obtain ⟨m, hm, rfl⟩ := hps
        intro hcontra
        rw [Bool.and_eq_true] at hcontra
        have h2 : p.1 = c := by simpa using hcontra.2
        rw [h2] at hp
        simp at hp
      rw [hnil]
      simp only [List.map_nil, List.nil_append]
      rw [ih hN.2]
      simp [alGet, hp]

theorem withIds_pendList_filter_ne {uid2 uid c : String} (hne : uid2 ≠ uid)
    (n : Nat) (inner : List (String × List Msg)) :
    (withIds n (pendList uid inner)).filter
        (fun e => e.2.userId == uid2 && e.2.channel == c) = [] := by
  rw [List.filter_eq_nil_iff]
  intro e he
  have h2 := withIds_mem_snd he
  have h3 := pendList_userId h2
  intro hcontra
  rw [Bool.and_eq_true] at hcontra
  have h4 : e.2.userId = uid2 := by simpa using hcontra.1
  rw [h4] at h3
  exact hne h3

theorem pairwise_id_unique {l : List (Nat × PendingSend)}
    (hp : List.Pairwise (fun a b => a.1 < b.1) l) {e1 e2 : Nat × PendingSend}
    (h1 : e1 ∈ l) (h2 : e2 ∈ l) (heq : e1.1 = e2.1) : e1 = e2 := by
  induction l with
  | nil => cases h1
  | cons x xs ih =>
    rw [List.pairwise_cons] at hp
    rcases List.mem_cons.mp h1 with ha | ha <;>
      rcases List.mem_cons.mp h2 with hb | hb
    · rw [ha, hb]
    · exfalso
      have h3 := hp.1 e2 hb
      rw [ha] at heq
      omega
    · exfalso
      have h3 := hp.1 e1 ha
      rw [hb] at heq
      omega
    · exact ih hp.2 ha hb

theorem pairwise_min_head {l : List (Nat × PendingSend)}
    (hp : List.Pairwise (fun a b => a.1 < b.1) l)
    {i : Nat} {ps : PendingSend} (hmem : (i, ps) ∈ l)
    (hmin : ∀ e ∈ l, i ≤ e.1) :
    l = (i, ps) :: l.tail := by
  cases l with
  | nil => cases hmem
  | cons x xs =>
    rcases List.mem_cons.mp hmem with h | h
    · rw [← h]
      rfl
    · exfalso
      rw [List.pairwise_cons] at hp
      have hx := hp.1 _ h
      have h2 := hmin x (List.mem_cons_self _ _)
      dsimp only at hx
      omega

theorem filter_tail_of_min {tail : List (Nat × PendingSend)} {i : Nat}
    (h : ∀ e ∈ tail, i < e.1) :
    tail.filter (fun e2 => !(e2.1 == i)) = tail := by
  apply List.filter_eq_self.mpr
  intro a ha
  have h2 := h a ha
  have h3 : a.1 ≠ i := by omega
  simp [h3]

theorem filter_comm_pend (l : List (Nat × PendingSend))
    (p q : Nat × PendingSend → Bool) :
    (l.filter p).filter q = (l.filter q).filter p := by
  induction l with
  | nil => rfl
  | cons x xs ih =>
    simp only [List.filter_cons]
    by_cases hp : p x = true <;> by_cases hq : q x = true <;>
      simp [hp, hq, List.filter_cons, ih]

theorem pairwise_filter {l : List (Nat × PendingSend)}
    (p : Nat × PendingSend → Bool)
    (h : List.Pairwise (fun a b => a.1 < b.1) l) :
    List.Pairwise (fun a b => a.1 < b.1) (l.filter p) :=
  h.sublist (List.filter_sublist l)

theorem filterMap_single_pick (uid c a b : String) (item : SentItem) :
    List.filterMap (fun e : String × String × SentItem =>
        if e.1 = uid ∧ e.2.1 = c then some e.2.2 else none) [(a, b, item)]
      = if a = uid ∧ b = c then [item] else [] := by
  by_cases h : (a = uid ∧ b = c)
  · simp [List.filterMap, h]
  · simp [List.filterMap, h]

theorem filterMap_single_toList {α β : Type} (f : α → Option β) (a : α) :
    List.filterMap f [a] = (f a).toList := by
  cases h : f a <;> simp [List.filterMap, h]

/-- What one `sendMessagesToIRC` call does to any `(uid, c)` pair: either
it returns before the drain loop and leaves queue, sent log and pending
sends alone, or it moves the whole queue onto the pending-send list, in
order, sending nothing yet. -/
theorem sendMessages_effect (cfg : Cfg) (tf : Msg → Option String) (u : User)
    (s : BotState) (hwf : WF s) (uid c : String) :
    (queueOf (sendMessagesToIRC cfg tf u s) uid c = queueOf s uid c
      ∧ sentOf (sendMessagesToIRC cfg tf u s) uid c = sentOf s uid c
      ∧ pendingOf (sendMessagesToIRC cfg tf u s) uid c = pendingOf s uid c)
    ∨ (queueOf (sendMessagesToIRC cfg tf u s) uid c = []
      ∧ sentOf (sendMessagesToIRC cfg tf u s) uid c = sentOf s uid c
      ∧ pendingMsgs (sendMessagesToIRC cfg tf u s) uid c
          = pendingMsgs s uid c ++ queueOf s uid c) := by
  unfold sendMessagesToIRC
  cases hq : alGet u.id s.messageQueues with
  | none => left; exact ⟨rfl, rfl, rfl⟩
  | some inner =>
    cases hc : alGet u.id s.ircClients with
    | none =>
      left
      refine ⟨?_, ?_, ?_⟩
      · unfold queueOf
        rw [(connectNewClient_queues cfg u s).1]
      · unfold sentOf
        rw [(connectNewClient_queues cfg u s).2.1]
      · unfold pendingOf
        rw [(connectNewClient_queues cfg u s).2.2.1]
    | some client =>
      by_cases hcon : client.connected = true
      · simp only [hcon, Bool.not_true, Bool.false_eq_true, if_false]
        have hmq := (restartAwayTimer_queues u (awayMessage u) s).1
        have hsl := (restartAwayTimer_queues u (awayMessage u) s).2.1
        have hpd := (restartAwayTimer_queues u (awayMessage u) s).2.2.1
        by_cases huid : uid = u.id
        · subst huid
          right
          refine ⟨?_, ?_, ?_⟩
          · unfold queueOf
            simp only
            rw [alGet_alSet_self, Option.getD_some, queueOf_mapEmpty]
          · unfold sentOf
            simp only
            rw [hsl]
          · unfold pendingMsgs pendingOf
            simp only
            rw [hpd, List.filter_append, List.map_append]
            congr 1
            rw [withIds_filter_msgs, pendList_filter_at]
            · unfold queueOf
              rw [hq, Option.getD_some]
            · exact hwf.2.2.1 _ (alGet_mem hq)
        · left
          refine ⟨?_, ?_, ?_⟩
          · unfold queueOf
            simp only
            rw [alGet_alSet_ne _ _ huid, hmq]
          · unfold sentOf
            simp only
            rw [hsl]
          · unfold pendingOf
            simp only
            rw [hpd, List.filter_append,
              withIds_pendList_filter_ne huid, List.append_nil]
      · have hcon2 : client.connected = false := by
          cases h2 : client.connected
          · rfl
          · exact absurd h2 hcon
        left
        refine ⟨?_, ?_, ?_⟩ <;> simp [hcon2]

theorem sendMessages_wf (cfg : Cfg) (tf : Msg → Option String) (u : User)
    {s : BotState} (hwf : WF s) : WF (sendMessagesToIRC cfg tf u s) := by
  unfold sendMessagesToIRC
  cases hq : alGet u.id s.messageQueues with
  | none => exact hwf
  | some inner =>
    cases hc : alGet u.id s.ircClients with
    | none => exact connectNewClient_wf cfg u hwf
    | some client =>
      by_cases hcon : client.connected = true
      · simp only [hcon, Bool.not_true, Bool.false_eq_true, if_false]
        have hwf1 := restartAwayTimer_wf u (awayMessage u) hwf
        have hpd := (restartAwayTimer_queues u (awayMessage u) s).2.2.1
        have hns := (restartAwayTimer_queues u (awayMessage u) s).2.2.2
        obtain ⟨h1, h2, h3, h4, h5⟩ := hwf1
        have hinner : (inner.map Prod.fst).Nodup :=
          hwf.2.2.1 _ (alGet_mem hq)
        refine ⟨h1, alSet_nodup _ _ h2, ?_, ?_, ?_⟩
        · intro p hp
          rcases mem_alSet hp with hmem | heq
          · exact h3 _ hmem
          · subst heq
            simp only [List.map_map]
            have hfst : (Prod.fst ∘ fun p : String × List Msg => (p.1, ([] : List Msg)))
                = Prod.fst := by
              funext q
              rfl
            rw [hfst]
            exact hinner
        · rw [List.pairwise_append]
          refine ⟨h4, withIds_pairwise _ _, ?_⟩
          intro a ha b hb
          have hb2 := withIds_mem_id hb
          have ha2 := h5 a ha
          omega
        · intro e he
          rcases List.mem_append.mp he with hmem | hmem
          · have h6 := h5 e hmem
            simp only
            omega
          · have h6 := withIds_mem_id hmem
            simp only
            omega
      · have hcon2 : client.connected = false := by
          cases h2 : client.connected
          · rfl
          · exact absurd h2 hcon
        simpa [hcon2] using hwf

theorem mq_set_wf {s : BotState} (hwf : WF s) (k : String)
    {v : List (String × List Msg)} (hv : (v.map Prod.fst).Nodup) :
    WF { s with messageQueues := alSet k v s.messageQueues } := by
  obtain ⟨h1, h2, h3, h4, h5⟩ := hwf
  refine ⟨h1, alSet_nodup _ _ h2, ?_, h4, h5⟩
  intro p hp
  rcases mem_alSet hp with hmem | heq
  · exact h3 _ hmem
  · subst heq
    simpa using hv

theorem getD_nodup {s : BotState} (hwf : WF s) (k : String) :
    (((alGet k s.messageQueues).getD []).map Prod.fst).Nodup := by
  cases hq : alGet k s.messageQueues with
  | none => simp
  | some inner => exact hwf.2.2.1 _ (alGet_mem hq)

theorem ensure_wf (u : User) {s : BotState} (hwf : WF s) :
    WF (ensureUserQueues u s) := by
  unfold ensureUserQueues
  exact mq_set_wf hwf u.id (getD_nodup hwf u.id)

theorem queueOf_ensure (u : User) (s : BotState) (uid c : String) :
    queueOf (ensureUserQueues u s) uid c = queueOf s uid c := by
  unfold queueOf ensureUserQueues
  by_cases huid : uid = u.id
  · subst huid
    simp only
    rw [alGet_alSet_self, Option.getD_some]
  · simp only
    rw [alGet_alSet_ne _ _ huid]

theorem push_wf (u : User) (ircChannel : String) (m : Msg) {s : BotState}
    (hwf : WF s) : WF (pushQueue u ircChannel m s) := by
  unfold pushQueue
  apply mq_set_wf hwf
  apply alSet_nodup
  exact getD_nodup hwf u.id

theorem queueOf_push (u : User) (ircChannel : String) (m : Msg)
    (s : BotState) (uid c : String) :
    queueOf (pushQueue u ircChannel m s) uid c
      = queueOf s uid c ++ (if u.id = uid ∧ ircChannel = c then [m] else []) := by
  unfold queueOf pushQueue
  by_cases huid : uid = u.id
  · subst huid
    simp only
    rw [alGet_alSet_self, Option.getD_some]
    by_cases hc2 : c = ircChannel
    · subst hc2
      rw [alGet_alSet_self, Option.getD_some]
      simp
    · rw [alGet_alSet_ne _ _ hc2,
        if_neg (fun h : True ∧ ircChannel = c => hc2 h.2.symm),
        List.append_nil]
  · simp only
    rw [alGet_alSet_ne _ _ huid,
      if_neg (fun h : u.id = uid ∧ ircChannel = c => huid h.1.symm),
      List.append_nil]

theorem queueMessage_wf (cfg : Cfg) (tf : Msg → Option String) (u : User)
    (m : Msg) (chanResp : Option ChanInfo) {s : BotState} (hwf : WF s) :
    WF (queueMessage cfg tf u m chanResp s) := by
  unfold queueMessage
  by_cases hth : m.thread_ts.isSome = true
  · simpa [hth] using hwf
  · simp only [hth, if_false, Bool.false_eq_true]
    cases chanResp with
    | none => exact hwf
    | some channel =>
      have hwf1 := ensure_wf u hwf
      by_cases hcmd : isCommandMessage cfg m.text = true
      · simp only [hcmd, if_true]
        exact ⟨hwf1.1, hwf1.2.1, hwf1.2.2.1, hwf1.2.2.2.1, hwf1.2.2.2.2⟩
      · simp only [hcmd, if_false, Bool.false_eq_true]
        cases hmap : alGet (chanNameOf channel) cfg.channelMapping with
        | none => exact sendMessages_wf cfg tf u hwf1
        | some ircChannel =>
          exact sendMessages_wf cfg tf u (push_wf u ircChannel m hwf1)

/-- What one `queueMessage` call does to any `(uid, c)` pair: the message
is appended exactly when the `enqOf` guard admits it, and then either the
drain does not run to completion (client missing or not connected: the
queue keeps everything, nothing new is registered for sending) or it
moves the whole queue, in order, onto the pending-send list. -/
theorem queueMessage_effect (cfg : Cfg) (tf : Msg → Option String)
    (u : User) (m : Msg) (chanResp : Option ChanInfo) (s : BotState)
    (hwf : WF s) (uid c : String) :
    (queueOf (queueMessage cfg tf u m chanResp s) uid c
        = queueOf s uid c ++ enqOf cfg uid c (Event.slackMessage u m chanResp)
      ∧ sentOf (queueMessage cfg tf u m chanResp s) uid c = sentOf s uid c
      ∧ pendingOf (queueMessage cfg tf u m chanResp s) uid c
          = pendingOf s uid c)
    ∨ (queueOf (queueMessage cfg tf u m chanResp s) uid c = []
      ∧ sentOf (queueMessage cfg tf u m chanResp s) uid c = sentOf s uid c
      ∧ pendingMsgs (queueMessage cfg tf u m chanResp s) uid c
          = pendingMsgs s uid c
            ++ (queueOf s uid c
                ++ enqOf cfg uid c (Event.slackMessage u m chanResp))) := by
  unfold queueMessage enqOf
  by_cases hth : m.thread_ts.isSome = true
  · simp [hth]
  · simp only [hth, if_false, Bool.false_eq_true]
    cases chanResp with
    | none => simp
    | some channel =>
      have hwf1 := ensure_wf u hwf
      by_cases hcmd : isCommandMessage cfg m.text = true
      · simp only [hcmd, if_true]
        left
        refine ⟨?_, rfl, rfl⟩
        rw [List.append_nil]
        exact queueOf_ensure u s uid c
      · simp only [hcmd, if_false, Bool.false_eq_true]
        cases hmap : alGet (chanNameOf channel) cfg.channelMapping with
        | none =>
          simp only [List.append_nil]
          rcases sendMessages_effect cfg tf u _ hwf1 uid c
            with ⟨hA, hB, hC⟩ | ⟨hA, hB, hC⟩
          · left
            refine ⟨?_, hB, hC⟩
            rw [hA]
            exact queueOf_ensure u s uid c
          · right
            refine ⟨hA, hB, ?_⟩
            rw [hC, queueOf_ensure]
            rfl
        | some ircChannel =>
          have hwf3 := push_wf u ircChannel m hwf1
          rcases sendMessages_effect cfg tf u _ hwf3 uid c
            with ⟨hA, hB, hC⟩ | ⟨hA, hB, hC⟩
          · left
            refine ⟨?_, hB, hC⟩
            rw [hA, queueOf_push, queueOf_ensure]
          · right
            refine ⟨hA, hB, ?_⟩
            rw [hC, queueOf_push, queueOf_ensure]
            rfl

theorem step_wf (cfg : Cfg) (tf : Msg → Option String) (e : Event)
    {s : BotState} (hwf : WF s) : WF (step cfg tf s e) := by
  cases e with
  | slackMessage u m chanResp => exact queueMessage_wf cfg tf u m chanResp hwf
  | names u => exact sendMessages_wf cfg tf u hwf
  | typing u => exact connectNewClient_wf cfg u hwf
  | connected u =>
    simp only [step]
    cases alGet u.id s.ircClients with
    | none => exact hwf
    | some c =>
      apply startAwayTimer_wf
      exact ⟨alSet_nodup _ _ hwf.1, hwf.2.1, hwf.2.2.1, hwf.2.2.2.1, hwf.2.2.2.2⟩
  | clientError u => exact deleteClient_wf u hwf
  | reset u => exact connectNewClient_wf cfg u (deleteClient_wf u hwf)
  | fire t =>
    simp only [step]
    cases s.pendingTimers.find? (fun e2 => e2.1 == t) with
    | none => exact hwf
    | some entry =>
      apply deleteClient_wf
      exact ⟨hwf.1, hwf.2.1, hwf.2.2.1, hwf.2.2.2.1, hwf.2.2.2.2⟩
  | promiseResolve i =>
    simp only [step]
    cases s.pendingSends.find? (fun e2 => e2.1 == i) with
    | none => exact hwf
    | some entry =>
      dsimp only
      obtain ⟨h1, h2, h3, h4, h5⟩ := hwf
      have h4f : List.Pairwise (fun a b : Nat × PendingSend => a.1 < b.1)
          (s.pendingSends.filter (fun e2 => !(e2.1 == i))) :=
        pairwise_filter _ h4
      have h5f : ∀ e ∈ s.pendingSends.filter (fun e2 => !(e2.1 == i)),
          e.1 < s.nextSend := by
        intro e he
        exact h5 e (List.mem_of_mem_filter he)
      cases deliver1 tf entry.2.msg with
      | none => exact ⟨h1, h2, h3, h4f, h5f⟩
      | some item => exact ⟨h1, h2, h3, h4f, h5f⟩

/-- What one event does to any `(uid, c)` pair, assuming that a pending
settlement (if the event is one) respects registration order: either the
event only (possibly) appends to the queue, or it moves the whole queue
onto the pending-send list, or it settles the oldest pending continuation
of the pair, delivering its message exactly when the transform
succeeds. -/
theorem step_effect (cfg : Cfg) (tf : Msg → Option String) (e : Event)
    (s : BotState) (hwf : WF s) (uid c : String)
    (hok : (match e with
            | Event.promiseResolve i => resolveOK s i
            | _ => true) = true) :
    (queueOf (step cfg tf s e) uid c = queueOf s uid c ++ enqOf cfg uid c e
      ∧ sentOf (step cfg tf s e) uid c = sentOf s uid c
      ∧ pendingOf (step cfg tf s e) uid c = pendingOf s uid c)
    ∨ (queueOf (step cfg tf s e) uid c = []
      ∧ sentOf (step cfg tf s e) uid c = sentOf s uid c
      ∧ pendingMsgs (step cfg tf s e) uid c
          = pendingMsgs s uid c ++ (queueOf s uid c ++ enqOf cfg uid c e))
    ∨ (∃ i ps rest, pendingOf s uid c = (i, ps) :: rest
      ∧ enqOf cfg uid c e = []
      ∧ queueOf (step cfg tf s e) uid c = queueOf s uid c
      ∧ pendingOf (step cfg tf s e) uid c = rest
      ∧ sentOf (step cfg tf s e) uid c
          = sentOf s uid c ++ (deliver1 tf ps.msg).toList) := by
  cases e with
  | slackMessage u m chanResp =>
    rcases queueMessage_effect cfg tf u m chanResp s hwf uid c with h | h
    · exact Or.inl h
    · exact Or.inr (Or.inl h)
  | names u =>
    simp only [step, enqOf, List.append_nil]
    rcases sendMessages_effect cfg tf u s hwf uid c with h | h
    · exact Or.inl h
    · exact Or.inr (Or.inl h)
  | typing u =>
    left
    simp only [step, enqOf, List.append_nil]
    refine ⟨?_, ?_, ?_⟩
    · unfold queueOf
      rw [(connectNewClient_queues cfg u s).1]
    · unfold sentOf
      rw [(connectNewClient_queues cfg u s).2.1]
    · unfold pendingOf
      rw [(connectNewClient_queues cfg u s).2.2.1]
  | connected u =>
    left
    simp only [step, enqOf, List.append_nil]
    cases alGet u.id s.ircClients with
    | none => exact ⟨rfl, rfl, rfl⟩
    | some cl =>
      refine ⟨?_, ?_, ?_⟩
      · unfold queueOf
        rw [(startAwayTimer_queues _ _ _).1]
      · unfold sentOf
        rw [(startAwayTimer_queues _ _ _).2.1]
      · unfold pendingOf
        rw [(startAwayTimer_queues _ _ _).2.2.1]
  | clientError u =>
    left
    simp only [step, enqOf, List.append_nil]
    refine ⟨?_, ?_, ?_⟩
    · unfold queueOf
      rw [(deleteClient_queues u s).1]
    · unfold sentOf
      rw [(deleteClient_queues u s).2.1]
    · unfold pendingOf
      rw [(deleteClient_queues u s).2.2.1]
  | reset u =>
    left
    simp only [step, enqOf, List.append_nil]
    refine ⟨?_, ?_, ?_⟩
    · unfold queueOf
      rw [(connectNewClient_queues cfg u _).1, (deleteClient_queues u s).1]
    · unfold sentOf
      rw [(connectNewClient_queues cfg u _).2.1, (deleteClient_queues u s).2.1]
    · unfold pendingOf
      rw [(connectNewClient_queues cfg u _).2.2.1,
        (deleteClient_queues u s).2.2.1]
  | fire t =>
    left
    simp only [step, enqOf, List.append_nil]
    cases s.pendingTimers.find? (fun e2 => e2.1 == t) with
    | none => exact ⟨rfl, rfl, rfl⟩
    | some entry =>
      refine ⟨?_, ?_, ?_⟩
      · unfold queueOf
        rw [(deleteClient_queues _ _).1]
      · unfold sentOf
        rw [(deleteClient_queues _ _).2.1]
      · unfold pendingOf
        rw [(deleteClient_queues _ _).2.2.1]
  | promiseResolve i =>
    have hok2 : resolveOK s i = true := hok
    simp only [step, enqOf, List.append_nil]
    cases hfind : s.pendingSends.find? (fun e2 => e2.1 == i) with
    | none => exact Or.inl ⟨rfl, rfl, rfl⟩
    | some entry =>
      dsimp only
      have hmem : entry ∈ s.pendingSends := List.mem_of_find?_eq_some hfind
      have hid : entry.1 = i := by
        have h2 := List.find?_some hfind
        simpa using h2
      have hall : ∀ e2 ∈ s.pendingSends,
          (!(e2.2.userId == entry.2.userId
              && e2.2.channel == entry.2.channel)
            || decide (i ≤ e2.1)) = true := by
        unfold resolveOK at hok2
        rw [hfind] at hok2
        exact List.all_eq_true.mp hok2
      by_cases hkey : (entry.2.userId = uid ∧ entry.2.channel = c)
      · right; right
        have hmemF : (i, entry.2) ∈ pendingOf s uid c := by
          unfold pendingOf
          apply List.mem_filter.mpr
          constructor
          · rw [← hid, Prod.mk.eta]
            exact hmem
          · simp [hkey.1, hkey.2]
        have hminF : ∀ e2 ∈ pendingOf s uid c, i ≤ e2.1 := by
          intro e2 he2
          have hm2 := (List.mem_filter.mp he2).1
          have hk2 := (List.mem_filter.mp he2).2
          have h4 := hall e2 hm2
          rw [Bool.and_eq_true] at hk2
          have hu2 : e2.2.userId = uid := by simpa using hk2.1
          have hc2 : e2.2.channel = c := by simpa using hk2.2
          rw [hu2, hc2, hkey.1, hkey.2] at h4
          simpa using h4
        have hpair : List.Pairwise (fun a b : Nat × PendingSend => a.1 < b.1)
            (pendingOf s uid c) := pairwise_filter _ hwf.2.2.2.1
        have hhead := pairwise_min_head hpair hmemF hminF
        have hpair2 : List.Pairwise
            (fun a b : Nat × PendingSend => a.1 < b.1)
            ((i, entry.2) :: (pendingOf s uid c).tail) := by
          rw [← hhead]
          exact hpair
        rw [List.pairwise_cons] at hpair2
        have htail : ∀ e2 ∈ (pendingOf s uid c).tail, i < e2.1 := by
          intro e2 he2
          exact hpair2.1 e2 he2
        have hpend : (pendingOf s uid c).filter (fun e2 => !(e2.1 == i))
            = (pendingOf s uid c).tail := by
          rw [hhead, List.filter_cons]
          have hh : (!(i, entry.2).1 == i) = false := by simp
          rw [hh]
          simp only [Bool.false_eq_true, if_false, List.tail_cons]
          rw [filter_tail_of_min htail]
        refine ⟨i, entry.2, (pendingOf s uid c).tail, hhead, True.intro, ?_⟩
        cases hdel : deliver1 tf entry.2.msg with
        | some item =>
          refine ⟨rfl, ?_, ?_⟩
          · show (s.pendingSends.filter (fun e2 => !(e2.1 == i))).filter
                (fun e2 => e2.2.userId == uid && e2.2.channel == c)
              = (pendingOf s uid c).tail
            rw [filter_comm_pend]
            exact hpend
          · unfold sentOf
            simp only
            rw [List.filterMap_append, filterMap_single_pick, if_pos hkey]
            rfl
        | none =>
          refine ⟨rfl, ?_, ?_⟩
          · show (s.pendingSends.filter (fun e2 => !(e2.1 == i))).filter
                (fun e2 => e2.2.userId == uid && e2.2.channel == c)
              = (pendingOf s uid c).tail
            rw [filter_comm_pend]
            exact hpend
          · unfold sentOf
            simp only
            simp
      · left
        have hfilter : (pendingOf s uid c).filter (fun e2 => !(e2.1 == i))
            = pendingOf s uid c := by
          apply List.filter_eq_self.mpr
          intro e2 he2
          have hm2 := (List.mem_filter.mp he2).1
          have hk2 := (List.mem_filter.mp he2).2
          by_contra hcon
          have hbe : (e2.1 == i) = true := by
            cases hb : (e2.1 == i)
            · rw [hb] at hcon
              simp at hcon
            · rfl
          have heq2 : e2.1 = entry.1 := by
            rw [hid]
            simpa using hbe
          have hee : e2 = entry :=
            pairwise_id_unique hwf.2.2.2.1 hm2 hmem heq2
          apply hkey
          rw [← hee]
          rw [Bool.and_eq_true] at hk2
          exact ⟨by simpa using hk2.1, by simpa using hk2.2⟩
        cases hdel : deliver1 tf entry.2.msg with
        | some item =>
          refine ⟨rfl, ?_, ?_⟩
          · unfold sentOf
            simp only
            rw [List.filterMap_append, filterMap_single_pick, if_neg hkey,
              List.append_nil]
          · show (s.pendingSends.filter (fun e2 => !(e2.1 == i))).filter
                (fun e2 => e2.2.userId == uid && e2.2.channel == c)
              = pendingOf s uid c
            rw [filter_comm_pend]
            exact hfilter
        | none =>
          refine ⟨rfl, rfl, ?_⟩
          show (s.pendingSends.filter (fun e2 => !(e2.1 == i))).filter
              (fun e2 => e2.2.userId == uid && e2.2.channel == c)
            = pendingOf s uid c
          rw [filter_comm_pend]
          exact hfilter

theorem initState_wf : WF initState := by
  refine ⟨?_, ?_, ?_, ?_, ?_⟩ <;> simp [initState]

/-- The central enqueue/pending/sent invariant, preserved along any event
trace whose settlements respect per-pair registration order: for every
`(uid, c)` pair, the history of enqueued messages splits into a processed
prefix `p` — whose deliverable members are exactly the sent log, in
order — followed by the unsettled pending sends and then the current
queue. -/
theorem run_inv (cfg : Cfg) (tf : Msg → Option String) (uid c : String) :
    ∀ (trace : List Event) (s : BotState) (E : List Msg), WF s →
    inOrderRes cfg tf trace s = true →
    (∃ p, E = p ++ pendingMsgs s uid c ++ queueOf s uid c
      ∧ sentOf s uid c = p.filterMap (deliver1 tf)) →
    ∃ p, E ++ enqueuedLog cfg uid c trace
        = p ++ pendingMsgs (run cfg tf trace s) uid c
          ++ queueOf (run cfg tf trace s) uid c
      ∧ sentOf (run cfg tf trace s) uid c = p.filterMap (deliver1 tf) := by
  intro trace
  induction trace with
  | nil =>
    intro s E hwf hres hInv
    simpa [run, enqueuedLog] using hInv
  | cons e es ih =>
    intro s E hwf hres hInv
    obtain ⟨p, hE, hS⟩ := hInv
    have hwf2 := step_wf cfg tf e hwf
    simp only [inOrderRes, Bool.and_eq_true] at hres
    obtain ⟨hok, hrest⟩ := hres
    have hrun : run cfg tf (e :: es) s = run cfg tf es (step cfg tf s e) := by
      simp [run]
    have hlog : enqueuedLog cfg uid c (e :: es)
        = enqOf cfg uid c e ++ enqueuedLog cfg uid c es := by
      simp [enqueuedLog]
    rw [hrun, hlog, ← List.append_assoc]
    rcases step_effect cfg tf e s hwf uid c hok with ⟨hA, hB, hC⟩ |
      ⟨hA, hB, hC⟩ | ⟨i, ps, rest, hper, hen, hqe, hpe, hse⟩
    · apply ih (step cfg tf s e) (E ++ enqOf cfg uid c e) hwf2 hrest
      refine ⟨p, ?_, ?_⟩
      · have hpm : pendingMsgs (step cfg tf s e) uid c
            = pendingMsgs s uid c := by
          unfold pendingMsgs
          rw [hC]
        rw [hA, hpm, hE]
        simp [List.append_assoc]
      · rw [hB, hS]
    · apply ih (step cfg tf s e) (E ++ enqOf cfg uid c e) hwf2 hrest
      refine ⟨p, ?_, ?_⟩
      · rw [hA, hC, hE]
        simp [List.append_assoc]
      · rw [hB, hS]
    · apply ih (step cfg tf s e) (E ++ enqOf cfg uid c e) hwf2 hrest
      refine ⟨p ++ [ps.msg], ?_, ?_⟩
      · have hpm : pendingMsgs (step cfg tf s e) uid c
            = rest.map (fun e2 => e2.2.msg) := by
          unfold pendingMsgs
          rw [hpe]
        have hpm0 : pendingMsgs s uid c
            = ps.msg :: rest.map (fun e2 => e2.2.msg) := by
          unfold pendingMsgs
          rw [hper]
          rfl
        rw [hen, hqe, hpm, hE, hpm0]
        simp [List.append_assoc]
      · rw [hse, hS, List.filterMap_append, filterMap_single_toList]

theorem run_wf (cfg : Cfg) (tf : Msg → Option String) :
    ∀ (trace : List Event) (s : BotState), WF s → WF (run cfg tf trace s) := by
  intro trace
  induction trace with
  | nil =>
    intro s h
    simpa [run] using h
  | cons e es ih =>
    intro s h
    have hstep : run cfg tf (e :: es) s = run cfg tf es (step cfg tf s e) := by
      simp [run]
    rw [hstep]
    exact ih _ (step_wf cfg tf e h)

/-- C1 counterexample: sends happen when each message's `parseText`
promise resolves, not when the drain loop shifts the message, so a later
plain message can overtake an earlier mention-bearing one (whose
`users.info` round-trip resolves later): on `c1trace` the messages are
enqueued as `hi`, `there` but handed to `client.say` as `there`, `hi` —
and the trace indeed settles the pair's promises out of registration
order. -/
theorem c1_counterexample :
    enqueuedLog sampleCfg "U1" "#irc-general" c1trace = [sampleMsg, msgThere]
    ∧ (sentOf (run sampleCfg sampleTf c1trace initState)
          "U1" "#irc-general").map (fun it => it.src)
        = [msgThere, sampleMsg]
    ∧ inOrderRes sampleCfg sampleTf c1trace initState = false := by
  decide

/-- C1 (amended): dispatch is FIFO — the drain loop shifts messages and
registers their send continuations in enqueue order — and delivery is
FIFO provided the `parseText` promises of each `(user, channel)` pair
settle in registration order (as they do when no message needs the
`users.info` round-trip): along any such trace from the initial state the
enqueue history of the pair splits into a processed prefix `p` — whose
deliverable members are exactly the sent log, in order — followed by the
registered-but-unsettled sends and then the messages still queued, so
queued messages survive drains cut short by a not-yet-connected client
and are replayed by a later `sendMessagesToIRC` call. -/
theorem c1_fifo_order (cfg : Cfg) (tf : Msg → Option String)
    (trace : List Event) (uid c : String)
    (hres : inOrderRes cfg tf trace initState = true) :
    ∃ p, enqueuedLog cfg uid c trace
        = p ++ pendingMsgs (run cfg tf trace initState) uid c
          ++ queueOf (run cfg tf trace initState) uid c
      ∧ sentOf (run cfg tf trace initState) uid c
          = p.filterMap (deliver1 tf) := by
  have h := run_inv cfg tf uid c trace initState []
    initState_wf hres ⟨[], rfl, rfl⟩
  simpa using h

/-- Witness for the amended C1: `c1traceOk` settles the two promises in
registration order, so the conclusion of `c1_fifo_order` holds of it. -/
theorem c1_fifo_order_witness :
    inOrderRes sampleCfg sampleTf c1traceOk initState = true
    ∧ ∃ p, enqueuedLog sampleCfg "U1" "#irc-general" c1traceOk
        = p ++ pendingMsgs (run sampleCfg sampleTf c1traceOk initState)
            "U1" "#irc-general"
          ++ queueOf (run sampleCfg sampleTf c1traceOk initState)
            "U1" "#irc-general"
      ∧ sentOf (run sampleCfg sampleTf c1traceOk initState)
          "U1" "#irc-general"
          = p.filterMap (deliver1 sampleTf) :=
  ⟨by decide, c1_fifo_order sampleCfg sampleTf c1traceOk "U1" "#irc-general"
    (by decide)⟩

/-- C2: at every reachable state there is at most one shadow client per
Slack user id (the `ircClients` keys are duplicate-free), a
`connectNewClient` call for a user with an existing entry is a complete
no-op (no client object, no connect attempt), and one for a user without
an entry installs exactly one fresh client and issues exactly one connect
attempt. -/
theorem c2_single_client (cfg : Cfg) (tf : Msg → Option String)
    (trace : List Event) (u : User) (s : BotState) :
    ((run cfg tf trace initState).ircClients.map Prod.fst).Nodup
    ∧ ((alGet u.id s.ircClients).isSome = true → connectNewClient cfg u s = s)
    ∧ (alGet u.id s.ircClients = none →
        alGet u.id (connectNewClient cfg u s).ircClients
            = some (freshClient cfg u)
        ∧ (connectNewClient cfg u s).connectAttempts
            = s.connectAttempts ++ [u.id]) := by
  refine ⟨(run_wf cfg tf trace initState initState_wf).1, ?_, ?_⟩
  · intro h
    unfold connectNewClient
    rw [if_pos h]
  · intro h
    have hfalse : (alGet u.id s.ircClients).isSome = false := by
      rw [h]
      rfl
    unfold connectNewClient
    rw [hfalse]
    simp [newClient, alGet_alSet_self]

/-- Witness for C2 at concrete states: a user with a live client gets no
second client, and after the entry is removed a fresh client and a fresh
connect attempt are made. -/
theorem c2_single_client_witness :
    connectNewClient sampleCfg sampleUser stateWithClient = stateWithClient
    ∧ alGet "U1" (connectNewClient sampleCfg sampleUser initState).ircClients
        = some (freshClient sampleCfg sampleUser) := by
  constructor
  · exact (c2_single_client sampleCfg sampleTf [] sampleUser
      stateWithClient).2.1 (by decide)
  · exact ((c2_single_client sampleCfg sampleTf [] sampleUser
      initState).2.2 (by decide)).1

theorem sendMessages_skipped (cfg : Cfg) (tf : Msg → Option String)
    (u : User) (s : BotState) (h : drainSkipped u s = true) :
    sendMessagesToIRC cfg tf u s = s
    ∨ sendMessagesToIRC cfg tf u s = connectNewClient cfg u s := by
  unfold sendMessagesToIRC
  unfold drainSkipped at h
  cases hq : alGet u.id s.messageQueues with
  | none => left; rfl
  | some inner =>
    rw [hq] at h
    dsimp only at h ⊢
    cases hc : alGet u.id s.ircClients with
    | none => right; rfl
    | some client =>
      rw [hc] at h
      dsimp only at h ⊢
      left
      rw [if_pos h]

theorem sendMessages_drained (cfg : Cfg) (tf : Msg → Option String)
    (u : User) (s : BotState) (hwf : WF s) (inner : List (String × List Msg))
    (client : Client) (hq : alGet u.id s.messageQueues = some inner)
    (hc : alGet u.id s.ircClients = some client)
    (hcon : client.connected = true) (c : String) :
    queueOf (sendMessagesToIRC cfg tf u s) u.id c = []
    ∧ sentOf (sendMessagesToIRC cfg tf u s) u.id c = sentOf s u.id c
    ∧ pendingMsgs (sendMessagesToIRC cfg tf u s) u.id c
        = pendingMsgs s u.id c ++ queueOf s u.id c := by
  unfold sendMessagesToIRC
  rw [hq, hc]
  simp only [hcon, Bool.not_true, Bool.false_eq_true, if_false]
  have hsl := (restartAwayTimer_queues u (awayMessage u) s).2.1
  have hpd := (restartAwayTimer_queues u (awayMessage u) s).2.2.1
  refine ⟨?_, ?_, ?_⟩
  · unfold queueOf
    simp only
    rw [alGet_alSet_self, Option.getD_some, queueOf_mapEmpty]
  · unfold sentOf
    simp only
    rw [hsl]
  · unfold pendingMsgs pendingOf
    simp only
    rw [hpd, List.filter_append, List.map_append]
    congr 1
    rw [withIds_filter_msgs, pendList_filter_at]
    · unfold queueOf
      rw [hq, Option.getD_some]
    · exact hwf.2.2.1 _ (alGet_mem hq)

/-- C3 counterexample: with a connected client, a queued message is
shifted out of the queue and registered for sending before its
`parseText` promise settles; when the promise rejects, the settlement
only removes the pending entry — nothing is sent and nothing is
requeued, so the message is silently dropped, contradicting the claim
for the transformation-failure case. -/
theorem c3_counterexample :
    queueOf stateWithClient "U1" "#irc-general" = [sampleMsg]
    ∧ queueOf (sendMessagesToIRC sampleCfg sampleTfFail sampleUser
        stateWithClient) "U1" "#irc-general" = []
    ∧ pendingMsgs (sendMessagesToIRC sampleCfg sampleTfFail sampleUser
        stateWithClient) "U1" "#irc-general" = [sampleMsg]
    ∧ sentOf (step sampleCfg sampleTfFail
        (sendMessagesToIRC sampleCfg sampleTfFail sampleUser stateWithClient)
        (Event.promiseResolve 0)) "U1" "#irc-general" = []
    ∧ pendingOf (step sampleCfg sampleTfFail
        (sendMessagesToIRC sampleCfg sampleTfFail sampleUser stateWithClient)
        (Event.promiseResolve 0)) "U1" "#irc-general" = [] := by
  decide

/-- C3 (amended): when the drain returns early (no queue object for the
user, no client, or a not-yet-connected client) every per-(user, channel)
queue, the sent log and the pending sends are left untouched, so the
messages are replayed by the next drain; but once the drain reaches a
connected client it unconditionally empties every queue of that user onto
the pending-send list — removal does not wait for a successful send — and
when a pending entry's transform fails, its settlement removes the entry
without sending or requeueing anything: the message is dropped. -/
theorem c3_queue_removal (cfg : Cfg) (tf : Msg → Option String) (u : User)
    (s : BotState) (hwf : WF s) (c : String) :
    (drainSkipped u s = true →
      queueOf (sendMessagesToIRC cfg tf u s) u.id c = queueOf s u.id c
      ∧ sentOf (sendMessagesToIRC cfg tf u s) u.id c = sentOf s u.id c
      ∧ pendingOf (sendMessagesToIRC cfg tf u s) u.id c
          = pendingOf s u.id c)
    ∧ (∀ inner client, alGet u.id s.messageQueues = some inner →
        alGet u.id s.ircClients = some client → client.connected = true →
        queueOf (sendMessagesToIRC cfg tf u s) u.id c = []
        ∧ sentOf (sendMessagesToIRC cfg tf u s) u.id c = sentOf s u.id c
        ∧ pendingMsgs (sendMessagesToIRC cfg tf u s) u.id c
            = pendingMsgs s u.id c ++ queueOf s u.id c)
    ∧ (∀ i entry, s.pendingSends.find? (fun e2 => e2.1 == i) = some entry →
        tf entry.2.msg = none →
        (step cfg tf s (Event.promiseResolve i)).sentLog = s.sentLog
        ∧ (step cfg tf s (Event.promiseResolve i)).pendingSends
            = s.pendingSends.filter (fun e2 => !(e2.1 == i))) := by
  refine ⟨?_, ?_, ?_⟩
  · intro h
    rcases sendMessages_skipped cfg tf u s h with heq | heq
    · rw [heq]
      exact ⟨rfl, rfl, rfl⟩
    · rw [heq]
      refine ⟨?_, ?_, ?_⟩
      · unfold queueOf
        rw [(connectNewClient_queues cfg u s).1]
      · unfold sentOf
        rw [(connectNewClient_queues cfg u s).2.1]
      · unfold pendingOf
        rw [(connectNewClient_queues cfg u s).2.2.1]
  · intro inner client hq hc hcon
    exact sendMessages_drained cfg tf u s hwf inner client hq hc hcon c
  · intro i entry hfind htf
    simp only [step]
    rw [hfind]
    dsimp only
    have hdel : deliver1 tf entry.2.msg = none := by
      unfold deliver1
      rw [htf]
    rw [hdel]
    exact ⟨rfl, rfl⟩

/-- Witness for the amended C3 at concrete states: a not-yet-connected
client keeps the queue intact, and a connected client empties it. -/
theorem c3_queue_removal_witness :
    (queueOf (sendMessagesToIRC sampleCfg sampleTf sampleUser
        stateNotConnected) "U1" "#irc-general"
      = queueOf stateNotConnected "U1" "#irc-general")
    ∧ queueOf (sendMessagesToIRC sampleCfg sampleTf sampleUser
        stateWithClient) "U1" "#irc-general" = [] :=
  ⟨((c3_queue_removal sampleCfg sampleTf sampleUser stateNotConnected
      (by decide) "#irc-general").1 (by decide)).1,
   ((c3_queue_removal sampleCfg sampleTf sampleUser stateWithClient
      (by decide) "#irc-general").2.1 [("#irc-general", [sampleMsg])]
      sampleClient (by decide) (by decide) (by decide)).1⟩

/-- C4: the code contradicts the claim (and the spec's cancellation
requirement).  `deleteClient` never clears `client.timer`, so after
typing-connect-`.reset` for `U1` the replacement client exists while the
away timer of the torn-down client is still pending, and when that timer
fires its `deleteClient` callback tears down the replacement client. -/
theorem c4_stale_timer :
    (alGet "U1" (run sampleCfg sampleTf c4trace initState).ircClients).isSome
        = true
    ∧ (run sampleCfg sampleTf c4trace initState).pendingTimers
        = [(0, sampleUser, "Slack user bob went away")]
    ∧ alGet "U1" (run sampleCfg sampleTf (c4trace ++ [Event.fire 0])
        initState).ircClients = none := by
  decide

/-- C5: an inbound IRC message, notice or action whose author is the
current nick of any shadow client is dropped by `sendToSlack` before the
`chat.postMessage` call, whatever the channel, text, channel lookup or
highlighting behave like — no echo of a shadow user's own relayed
traffic ever reaches Slack. -/
theorem c5_no_echo (cfg : Cfg) (lookupChan : String → Option SlackChannel)
    (highlight : String → String → String) (st : BotState)
    (author channel text : String)
    (h : (currentShadowNicks st).contains author = true) :
    sendToSlack cfg lookupChan highlight st author channel text = none
    ∧ noticeToSlack cfg lookupChan highlight st author channel text = none
    ∧ actionToSlack cfg lookupChan highlight st author channel text = none := by
  have key : ∀ t : String,
      sendToSlack cfg lookupChan highlight st author channel t = none := by
    intro t
    unfold sendToSlack
    cases alGet (strToLower channel) cfg.invertedMapping with
    | none => rfl
    | some slackChannelName =>
      dsimp only
      cases lookupChan (dropHash slackChannelName) with
      | none => rfl
      | some slackChannel =>
        dsimp only
        by_cases hm : ((!slackChannel.is_member) = true
            ∧ (!slackChannel.is_group) = true)
        · rw [if_pos hm]
        · rw [if_neg hm, if_pos h]
  exact ⟨key text, key _, key _⟩

/-- Witness for C5 at a concrete state: `bob-sl` is the shadow nick of
`U1`, and a message it authors on the mapped channel is not posted. -/
theorem c5_no_echo_witness :
    sendToSlack sampleCfg sampleLookupChan sampleHighlight stateWithClient
      "bob-sl" "#irc-general" "hello" = none :=
  (c5_no_echo sampleCfg sampleLookupChan sampleHighlight stateWithClient
    "bob-sl" "#irc-general" "hello" (by decide)).1

/-- C8 counterexample: a `.topic` message that is a thread reply has its
first character in `commandCharacters`, yet `queueMessage` returns at the
`thread_ts` guard (line 584) before the command check, so it is never
routed to `processCommandMessage` — the claim's unconditional routing is
false. -/
theorem c8_counterexample :
    isCommandMessage sampleCfg threadCmdMsg.text = true
    ∧ (queueMessage sampleCfg sampleTf sampleUser threadCmdMsg
        (some sampleChan) initState).processedCommands = [] := by
  decide

/-- C8 (amended): for every command message (first character in
`commandCharacters`), `queueMessage` itself enqueues nothing and sends
nothing — every per-(user, channel) queue and the sent log are
unchanged; and whenever such a message additionally passes the earlier
guards (it is not a thread reply and the channel lookup succeeds), it is
routed to `processCommandMessage` before any enqueue. -/
theorem c8_command_interception (cfg : Cfg) (tf : Msg → Option String)
    (u : User) (m : Msg) (chanResp : Option ChanInfo) (s : BotState)
    (hcmd : isCommandMessage cfg m.text = true) :
    (∀ uid c, queueOf (queueMessage cfg tf u m chanResp s) uid c
        = queueOf s uid c)
    ∧ (queueMessage cfg tf u m chanResp s).sentLog = s.sentLog
    ∧ (m.thread_ts = none → ∀ channel, chanResp = some channel →
        (queueMessage cfg tf u m chanResp s).processedCommands
          = s.processedCommands ++ [m]) := by
  unfold queueMessage
  by_cases hth : m.thread_ts.isSome = true
  · refine ⟨fun uid c => ?_, ?_, ?_⟩
    · simp [hth]
    · simp [hth]
    · intro hnone
      rw [hnone] at hth
      simp at hth
  · simp only [hth, if_false, Bool.false_eq_true]
    cases chanResp with
    | none =>
      refine ⟨fun uid c => rfl, rfl, ?_⟩
      intro _ channel hsome
      cases hsome
    | some channel =>
      simp only [hcmd, if_true]
      refine ⟨?_, rfl, ?_⟩
      · intro uid c
        exact queueOf_ensure u s uid c
      · intro _ channel2 hsome
        rfl

/-- Witness for the amended C8: a `.topic` message in the mapped channel
is routed to the dispatcher and leaves the queue of `(U1, #irc-general)`
untouched. -/
theorem c8_command_interception_witness :
    queueOf (queueMessage sampleCfg sampleTf sampleUser
        { sampleMsg with text := ".topic" } (some sampleChan)
        stateWithClient) "U1" "#irc-general"
      = queueOf stateWithClient "U1" "#irc-general"
    ∧ (queueMessage sampleCfg sampleTf sampleUser
        { sampleMsg with text := ".topic" } (some sampleChan)
        stateWithClient).processedCommands
      = [{ sampleMsg with text := ".topic" }] :=
  ⟨(c8_command_interception sampleCfg sampleTf sampleUser
      { sampleMsg with text := ".topic" } (some sampleChan)
      stateWithClient (by decide)).1 "U1" "#irc-general",
   (c8_command_interception sampleCfg sampleTf sampleUser
      { sampleMsg with text := ".topic" } (some sampleChan)
      stateWithClient (by decide)).2.2 rfl sampleChan rfl⟩

/-- C9: the constructor checks `server`, `nickname`, `channelMapping`,
`token` in `REQUIRED_FIELDS` order; if any is absent or falsy it throws
a `ConfigurationError` naming the (first) missing field, and when all
four are present and the channel mapping passes validation, no
`ConfigurationError` is thrown at all (the constructor can still fail
later for an unrelated reason: line 81 dereferences `options.imgur`). -/
theorem c9_required_fields (validMapping : List (String × String) → Bool)
    (o : Options) :
    ((∃ f ∈ REQUIRED_FIELDS, fieldFalsy o f = true) →
      ∃ f, fieldFalsy o f = true
        ∧ newBot validMapping o = Except.error (BotError.configurationError
            ("Missing configuration field " ++ f)))
    ∧ (fieldFalsy o "server" = false → fieldFalsy o "nickname" = false →
        fieldFalsy o "channelMapping" = false → fieldFalsy o "token" = false →
        ∀ mapping, o.channelMapping = some mapping →
          validMapping mapping = true →
          ∀ msg, newBot validMapping o
            ≠ Except.error (BotError.configurationError msg)) := by
  constructor
  · intro hex
    have hsome : (REQUIRED_FIELDS.find? (fieldFalsy o)).isSome := by
      rw [List.find?_isSome]
      obtain ⟨f, hf, hp⟩ := hex
      exact ⟨f, hf, hp⟩
    cases hfind : REQUIRED_FIELDS.find? (fieldFalsy o) with
    | none =>
      rw [hfind] at hsome
      cases hsome
    | some f =>
      refine ⟨f, List.find?_some hfind, ?_⟩
      unfold newBot
      rw [hfind]
  · intro h1 h2 h3 h4 mapping hmap hvalid msg
    have hfind : REQUIRED_FIELDS.find? (fieldFalsy o) = none := by
      unfold REQUIRED_FIELDS
      simp [List.find?, h1, h2, h3, h4]
    unfold newBot
    rw [hfind, hmap]
    dsimp only
    rw [hvalid]
    cases o.imgur with
    | none =>
      intro hcontra
      simp at hcontra
    | some im =>
      intro hcontra
      simp at hcontra

/-- Witness for C9 at concrete option objects: a missing `token` is
reported as such, and a complete configuration never raises a
`ConfigurationError`. -/
theorem c9_required_fields_witness :
    (∃ f, fieldFalsy badOptions f = true
      ∧ newBot (fun _ => true) badOptions
          = Except.error (BotError.configurationError
              ("Missing configuration field " ++ f)))
    ∧ newBot (fun _ => true) goodOptions
        ≠ Except.error (BotError.configurationError "boom") :=
  ⟨(c9_required_fields (fun _ => true) badOptions).1
      ⟨"token", by decide, by decide⟩,
   (c9_required_fields (fun _ => true) goodOptions).2
      (by decide) (by decide) (by decide) (by decide)
      [("#general", "#irc-general")] rfl rfl "boom"⟩

/-- C10: `privMessage` requires a pre-existing `messageQueues` entry for
the caller — with no entry, a `.msg` sent from a DM to a target that is
online (the `whois` answer carries a `host`) throws the `TypeError` from
reading `messageQueue[ircUser]` off `undefined` and sends nothing, while
with an entry present the call succeeds; the entry always exists when
`privMessage` is reached through `queueMessage`, whose line 593 creates
it before dispatching the command. -/
theorem c10_priv_message (cfg : Cfg) (tf : Msg → Option String) (u : User)
    (channel target msg host : String) (s : BotState) :
    (alGet u.id s.messageQueues = none → strStartsWith "D" channel = true →
      privMessage cfg tf u channel target msg (some host) s
        = Except.error
            "TypeError: cannot read messageQueue[ircUser] of undefined")
    ∧ (∀ inner, alGet u.id s.messageQueues = some inner →
        strStartsWith "D" channel = true →
        ∃ s2, privMessage cfg tf u channel target msg (some host) s
          = Except.ok s2) := by
  constructor
  · intro hq hd
    unfold privMessage
    rw [hd]
    simp only [Bool.not_true, Bool.false_eq_true, if_false]
    rw [hq]
  · intro inner hq hd
    unfold privMessage
    rw [hd]
    simp only [Bool.not_true, Bool.false_eq_true, if_false]
    rw [hq]
    exact ⟨_, rfl⟩

/-- Witness for C10 at concrete states: with no queue entry for `U1` the
call throws, and with an entry it succeeds. -/
theorem c10_priv_message_witness :
    privMessage sampleCfg sampleTf sampleUser "D123" "ann" "hello"
        (some "host") initState
      = Except.error
          "TypeError: cannot read messageQueue[ircUser] of undefined"
    ∧ ∃ s2, privMessage sampleCfg sampleTf sampleUser "D123" "ann" "hello"
        (some "host") stateWithClient = Except.ok s2 :=
  ⟨(c10_priv_message sampleCfg sampleTf sampleUser "D123" "ann" "hello"
      "host" initState).1 rfl (by decide),
   (c10_priv_message sampleCfg sampleTf sampleUser "D123" "ann" "hello"
      "host" stateWithClient).2 [("#irc-general", [sampleMsg])]
      (by decide) (by decide)⟩

theorem toList_mk (l : List Char) : (String.mk l).toList = l := rfl

theorem mk_toList (s : String) : String.mk s.toList = s := rfl

theorem length_mk (l : List Char) : (String.mk l).length = l.length := rfl

theorem subChar_comp (l : List Char) :
    (l.map (fun c => if c = '.' then '-' else c)).map
        (fun c => if c = ' ' then '-' else c)
      = l.map (fun c => if c = '.' ∨ c = ' ' then '-' else c) := by
  induction l with
  | nil => rfl
  | cons ch rest ih =>
    simp only [List.map_cons, ih]
    congr 1
    by_cases h1 : ch = '.'
    · subst h1
      decide
    · by_cases h2 : ch = ' '
      · subst h2
        decide
      · simp [h1, h2]

/-- C6: `ircNick` is a deterministic function of the display name
agreeing with the spec's one-pass description (every `.` and every space
becomes `-`, truncation to `SERVER_NICKLEN` minus the suffix length,
suffix appended); with the default suffix `-sl` it maps `bob` to
`bob-sl` and never produces more than 16 characters. -/
theorem c6_nick_rule :
    (∀ s : String, ircNick "-sl" s = ircNickSpec "-sl" s
      ∧ (ircNick "-sl" s).length ≤ SERVER_NICKLEN)
    ∧ ircNick "-sl" "bob" = "bob-sl" := by
  constructor
  · intro s
    constructor
    · unfold ircNick ircNickSpec strTake jsReplaceChar
      simp only [toList_mk]
      rw [subChar_comp]
    · unfold ircNick strTake
      rw [String.length_append, length_mk]
      have h0 : SERVER_NICKLEN = 16 := rfl
      have h1 : ((jsReplaceChar ' ' '-' (jsReplaceChar '.' '-' s)).toList.take
          (SERVER_NICKLEN - String.length "-sl")).length
            ≤ SERVER_NICKLEN - String.length "-sl" := by
        rw [List.length_take]
        exact min_le_left _ _
      have h2 : String.length "-sl" = 3 := by decide
      omega
  · decide

theorem takeWhile_all {p : Char → Bool} :
    ∀ l : List Char, (∀ c ∈ l, p c = true) → l.takeWhile p = l := by
  intro l h
  induction l with
  | nil => rfl
  | cons x xs ih =>
    have hx := h x (List.mem_cons_self x xs)
    simp [List.takeWhile_cons, hx,
      ih (fun c hc => h c (List.mem_cons_of_mem _ hc))]

theorem toList_append (a b : String) :
    (a ++ b).toList = a.toList ++ b.toList := rfl

theorem sfx_chars : ("-sl" : String).toList = ['-', 's', 'l'] := rfl

theorem nickCore_exact (B : List Char) (hne : B ≠ [])
    (hns : ∀ ch ∈ B, isSpaceJS ch = false) :
    nickCore ['-', 's', 'l'] (B ++ ['-', 's', 'l'])
      = some (B ++ ['-', 's', 'l'], []) := by
  have hrun : (B ++ ['-', 's', 'l']).takeWhile (fun c => !isSpaceJS c)
      = B ++ ['-', 's', 'l'] := by
    apply takeWhile_all
    intro c hc
    rcases List.mem_append.mp hc with h | h
    · rw [hns c h]
      rfl
    · fin_cases h <;> rfl
  simp only [nickCore]
  rw [hrun]
  have hlen3 : (['-', 's', 'l'] : List Char).length = 3 := rfl
  have hlen : (B ++ ['-', 's', 'l']).length - 3 = B.length := by
    simp [List.length_append]
  rw [hlen3, hlen]
  obtain ⟨b0, B', rfl⟩ := List.exists_cons_of_ne_nil hne
  have hocc : occursAt ['-', 's', 'l'] ((b0 :: B') ++ ['-', 's', 'l'])
      (B'.length + 1) = true := by
    unfold occursAt
    have hd : ((b0 :: B') ++ ['-', 's', 'l']).drop (B'.length + 1)
        = ['-', 's', 'l'] := by
      have h2 : B'.length + 1 = (b0 :: B').length := rfl
      rw [h2, List.drop_left]
    rw [hd]
    rfl
  have hfl : findLastFrom ['-', 's', 'l'] ((b0 :: B') ++ ['-', 's', 'l'])
      ((b0 :: B').length) = some ((b0 :: B').length) := by
    simp only [List.length_cons]
    simp only [findLastFrom]
    rw [if_pos hocc]
  rw [hfl]
  dsimp only
  have hdrop : List.drop ((b0 :: B').length + 3)
      ((b0 :: B') ++ ['-', 's', 'l']) = [] := by
    apply List.drop_eq_nil_of_le
    simp [List.length_append]
  rw [hdrop]
  simp only [List.head?_nil]
  have htake : List.take ((b0 :: B').length + 3 + 0)
      ((b0 :: B') ++ ['-', 's', 'l']) = (b0 :: B') ++ ['-', 's', 'l'] := by
    apply List.take_of_length_le
    simp [List.length_append]
  have hdrop2 : List.drop ((b0 :: B').length + 3 + 0)
      ((b0 :: B') ++ ['-', 's', 'l']) = [] := by
    apply List.drop_eq_nil_of_le
    simp [List.length_append]
  rw [htake, hdrop2]

theorem nickTry_exact (B : List Char) (hne : B ≠ [])
    (hns : ∀ ch ∈ B, isSpaceJS ch = false)
    (hat : ∀ ch ∈ B, ch ≠ '@') :
    nickTry ['-', 's', 'l'] (B ++ ['-', 's', 'l'])
      = some (B ++ ['-', 's', 'l'], B ++ ['-', 's', 'l'], []) := by
  obtain ⟨b0, B', rfl⟩ := List.exists_cons_of_ne_nil hne
  rw [List.cons_append]
  simp only [nickTry]
  rw [if_neg (hat b0 (List.mem_cons_self _ _))]
  rw [← List.cons_append, nickCore_exact _ hne hns]

theorem replaceAux_whole (clients : List (String × Client)) (B : List Char)
    (hne : B ≠ []) (hns : ∀ ch ∈ B, isSpaceJS ch = false)
    (hat : ∀ ch ∈ B, ch ≠ '@') :
    replaceUsernamesAux clients ['-', 's', 'l']
        ((B ++ ['-', 's', 'l']).length) (B ++ ['-', 's', 'l'])
      = nickRepl clients (B ++ ['-', 's', 'l']) (B ++ ['-', 's', 'l']) := by
  obtain ⟨b0, B', rfl⟩ := List.exists_cons_of_ne_nil hne
  have hTry := nickTry_exact (b0 :: B') hne hns hat
  rw [List.cons_append, List.length_cons]
  simp only [replaceUsernamesAux]
  rw [← List.cons_append] at *
  rw [hTry]
  dsimp only
  have hl : (B' ++ ['-', 's', 'l']).length = (B'.length + 2) + 1 := by
    simp [List.length_append]
  rw [hl]
  simp only [replaceUsernamesAux]
  rw [List.append_nil]

theorem slackMention_exact (nicks : List String) (s : String)
    (h1 : s.toList ≠ []) (h2 : ∀ ch ∈ s.toList, isSpaceJS ch = false)
    (hcont : nicks.contains (ircNick "-sl" s) = true) :
    slackMentionReplace "-sl" nicks ("@" ++ s) = ircNick "-sl" s := by
  unfold slackMentionReplace
  have hl : ("@" ++ s).toList = '@' :: s.toList := rfl
  rw [hl, List.length_cons]
  simp only [slackMentionAux, if_true]
  have hname : s.toList.takeWhile (fun ch => !isSpaceJS ch) = s.toList :=
    takeWhile_all _ (fun c hc => by rw [h2 c hc]; rfl)
  rw [hname]
  have hemp : s.toList.isEmpty = false := by
    cases hx : s.toList with
    | nil => exact absurd hx h1
    | cons a as => rfl
  rw [hemp]
  simp only [Bool.false_eq_true, if_false]
  unfold slackMentionRepl
  rw [mk_toList]
  simp only [hcont, if_true]
  rw [List.drop_length]
  obtain ⟨c0, cs, hx⟩ := List.exists_cons_of_ne_nil h1
  rw [hx, List.length_cons]
  simp only [slackMentionAux]
  rw [List.append_nil, mk_toList]

/-- C7: mention round-trip.  For a display name `s` (nonempty, without
whitespace or `@`, as Slack mention tokens require) whose shadow client
carries nick `ircNick s` and Slack name `s` — and is the client the nick
lookup resolves to — the Slack-to-IRC mention step of `parseText`
rewrites the mention `@s` to the virtual nickname `ircNick s`, and
`replaceUsernames` rewrites an occurrence of that virtual nickname back
to the original display name `s`, not to the virtual nickname. -/
theorem c7_mention_roundtrip (st : BotState) (s uid2 : String)
    (client : Client)
    (h1 : s.toList ≠ [])
    (h2 : ∀ ch ∈ s.toList, isSpaceJS ch = false)
    (h3 : ∀ ch ∈ s.toList, ch ≠ '@')
    (h4 : st.ircClients.find? (fun p => p.2.nick == ircNick "-sl" s)
        = some (uid2, client))
    (h5 : client.slackName = s) :
    slackMentionReplace "-sl" (currentShadowNicks st) ("@" ++ s)
        = ircNick "-sl" s
    ∧ replaceUsernames st "-sl" (ircNick "-sl" s) = s := by
  have hnick : client.nick = ircNick "-sl" s := by
    have hp := List.find?_some h4
    simpa using hp
  have hmem : ircNick "-sl" s ∈ currentShadowNicks st := by
    have hm := List.mem_of_find?_eq_some h4
    unfold currentShadowNicks
    rw [← hnick]
    exact List.mem_map_of_mem _ hm
  have hcont : (currentShadowNicks st).contains (ircNick "-sl" s) = true :=
    List.elem_eq_true_of_mem hmem
  have hn13 : SERVER_NICKLEN - String.length "-sl" = 13 := by decide
  have hform : (ircNick "-sl" s).toList
      = ((jsReplaceChar ' ' '-' (jsReplaceChar '.' '-' s)).toList.take 13)
        ++ ['-', 's', 'l'] := by
    unfold ircNick strTake
    rw [toList_append, toList_mk, sfx_chars, hn13]
  have hBlen : ((jsReplaceChar ' ' '-' (jsReplaceChar '.' '-' s)).toList.take
      13).length = min 13 s.toList.length := by
    unfold jsReplaceChar
    rw [toList_mk, List.length_take, toList_mk, List.length_map,
      List.length_map]
  have hBne : ((jsReplaceChar ' ' '-' (jsReplaceChar '.' '-' s)).toList.take
      13) ≠ [] := by
    apply List.ne_nil_of_length_pos
    rw [hBlen]
    have hpos : 0 < s.toList.length := List.length_pos.mpr h1
    omega
  have hBmem : ∀ ch ∈ ((jsReplaceChar ' ' '-'
      (jsReplaceChar '.' '-' s)).toList.take 13),
      ch = '-' ∨ ch ∈ s.toList := by
    intro ch hch
    have hch2 := List.mem_of_mem_take hch
    unfold jsReplaceChar at hch2
    rw [toList_mk, toList_mk] at hch2
    obtain ⟨c1, hc1, rfl⟩ := List.mem_map.mp hch2
    obtain ⟨c2, hc2, rfl⟩ := List.mem_map.mp hc1
    by_cases hd : c2 = '.'
    · left
      simp [hd]
    · by_cases hs2 : c2 = ' '
      · left
        simp [hd, hs2]
      · right
        simpa [hd, hs2] using hc2
  have hBns : ∀ ch ∈ ((jsReplaceChar ' ' '-'
      (jsReplaceChar '.' '-' s)).toList.take 13), isSpaceJS ch = false := by
    intro ch hch
    rcases hBmem ch hch with h | h
    · rw [h]
      rfl
    · exact h2 ch h
  have hBat : ∀ ch ∈ ((jsReplaceChar ' ' '-'
      (jsReplaceChar '.' '-' s)).toList.take 13), ch ≠ '@' := by
    intro ch hch
    rcases hBmem ch hch with h | h
    · rw [h]
      decide
    · exact h3 ch h
  constructor
  · exact slackMention_exact _ s h1 h2 hcont
  · unfold replaceUsernames
    rw [sfx_chars, hform, replaceAux_whole st.ircClients _ hBne hBns hBat]
    unfold nickRepl
    have hmk : String.mk
        (((jsReplaceChar ' ' '-' (jsReplaceChar '.' '-' s)).toList.take 13)
          ++ ['-', 's', 'l']) = ircNick "-sl" s := by
      rw [← hform, mk_toList]
    rw [hmk, h4]
    dsimp only
    rw [h5, mk_toList]

/-- Witness for C7 at a concrete state: `@bob` becomes `bob-sl` on the
way to IRC, and `bob-sl` becomes `bob` again on the way back. -/
theorem c7_mention_roundtrip_witness :
    slackMentionReplace "-sl" (currentShadowNicks stateWithClient)
        ("@" ++ "bob") = ircNick "-sl" "bob"
    ∧ replaceUsernames stateWithClient "-sl" (ircNick "-sl" "bob") = "bob" :=
  c7_mention_roundtrip stateWithClient "bob" "U1" sampleClient
    (by decide) (by decide) (by decide) (by decide) (by decide)

end SlackIrc
